import Mathlib

/-!
Verification of the EIDOScopio taxon-resolution pipeline.

This file gives a shallow embedding, in Lean 4, of the core functions of
the repository (src/app.py and src/streamlit_app.py) and proves or refutes
the frozen claims about them.  HTTP requests are modelled by passing the
registry's responses as explicit arguments (`Except Unit _` distinguishes a
transport failure from a successful response); Python dictionaries are
modelled as insertion-ordered association lists; `pandas` data frames are
modelled as a list of column names plus a list of cell rows aligned with
those columns.
-/

namespace EIDOScopio

/-- Python truthiness for an optional taxon id: `if not taxon_id:` is taken
when the value is `None` or `0`. -/
def truthyId : Option Int → Bool
  | some v => v != 0
  | none => false

/-- Python `str.lower()` restricted to the Latin letters that occur in the
program's data: ASCII uppercase and the accented Latin-1 uppercase letters
are lowercased, everything else is kept unchanged. -/
def pyLowerChar (c : Char) : Char :=
  if 'A' ≤ c ∧ c ≤ 'Z' then Char.ofNat (c.toNat + 32)
  else match c with
  | 'Á' => 'á' | 'À' => 'à' | 'Â' => 'â' | 'Ä' => 'ä' | 'Ã' => 'ã'
  | 'É' => 'é' | 'È' => 'è' | 'Ê' => 'ê' | 'Ë' => 'ë'
  | 'Í' => 'í' | 'Ì' => 'ì' | 'Î' => 'î' | 'Ï' => 'ï'
  | 'Ó' => 'ó' | 'Ò' => 'ò' | 'Ô' => 'ô' | 'Ö' => 'ö' | 'Õ' => 'õ'
  | 'Ú' => 'ú' | 'Ù' => 'ù' | 'Û' => 'û' | 'Ü' => 'ü'
  | 'Ñ' => 'ñ' | 'Ç' => 'ç'
  | other => other

/-- Python `str.lower()` on a whole string (see `pyLowerChar`). -/
def pyLower (s : String) : String :=
  ⟨s.data.map pyLowerChar⟩

/-- One character of `unicodedata.normalize("NFKD", s).encode("ascii",
"ignore")`: ASCII characters pass through, accented Latin-1 letters
decompose to their base letter (the combining mark is dropped by the ascii
encoding), any other non-ASCII character is dropped.  NFKD decompositions
that produce several ASCII characters (ligatures etc.) do not occur in the
program's data and are not modelled. -/
def nfkdAscii (c : Char) : Option Char :=
  if c.toNat ≤ 127 then some c
  else match c with
  | 'á' => some 'a' | 'à' => some 'a' | 'â' => some 'a' | 'ä' => some 'a' | 'ã' => some 'a'
  | 'é' => some 'e' | 'è' => some 'e' | 'ê' => some 'e' | 'ë' => some 'e'
  | 'í' => some 'i' | 'ì' => some 'i' | 'î' => some 'i' | 'ï' => some 'i'
  | 'ó' => some 'o' | 'ò' => some 'o' | 'ô' => some 'o' | 'ö' => some 'o' | 'õ' => some 'o'
  | 'ú' => some 'u' | 'ù' => some 'u' | 'û' => some 'u' | 'ü' => some 'u'
  | 'Á' => some 'A' | 'É' => some 'E' | 'Í' => some 'I' | 'Ó' => some 'O' | 'Ú' => some 'U'
  | 'ñ' => some 'n' | 'Ñ' => some 'N' | 'ç' => some 'c' | 'Ç' => some 'C'
  | 'Ü' => some 'U' | 'À' => some 'A' | 'È' => some 'E' | 'Ì' => some 'I'
  | 'Ò' => some 'O' | 'Ù' => some 'U'
  | _ => none

/-- Python `str.strip()`: drop whitespace from both ends. -/
def pyStrip (s : String) : String :=
  ⟨((s.data.dropWhile Char.isWhitespace).reverse.dropWhile Char.isWhitespace).reverse⟩

/-- `_normalize` from src/app.py: NFKD-decompose, drop non-ASCII, lowercase
and strip surrounding whitespace. -/
def pyNormalize (s : String) : String :=
  pyStrip (String.mk ((s.data.filterMap nfkdAscii).map pyLowerChar))

/-- Whether the first character list is an initial segment of the second. -/
def charsPre : List Char → List Char → Bool
  | [], _ => true
  | _ :: _, [] => false
  | a :: as, b :: bs => a = b && charsPre as bs

/-- Whether the first character list occurs contiguously inside the second. -/
def charsSub : List Char → List Char → Bool
  | n, [] => n.isEmpty
  | n, c :: rest => charsPre n (c :: rest) || charsSub n rest

/-- Python's `needle in hay` substring test. -/
def containsSub (needle hay : String) : Bool :=
  charsSub needle.data hay.data

/-- Python's `s[:n]` slice. -/
def pyTake (s : String) (n : Nat) : String :=
  ⟨s.data.take n⟩

/-- Code-point lexicographic comparison of character lists — the order
Python's `sorted` and `<` use on strings. -/
def charListLe : List Char → List Char → Bool
  | [], _ => true
  | _ :: _, [] => false
  | a :: as, b :: bs => if a = b then charListLe as bs else decide (a < b)

/-- Python's `a <= b` on strings (code-point lexicographic). -/
def strLe (a b : String) : Prop :=
  charListLe a.data b.data = true

instance : DecidableRel strLe := fun a b =>
  inferInstanceAs (Decidable (charListLe a.data b.data = true))

/-! ## Rows (Python dictionaries of strings) -/

/-- A result row: a Python `dict[str, str]`, modelled as an insertion-ordered
association list with unique keys. -/
abbrev Row := List (String × String)

/-- The in-place update of one binding for `dictInsert`. -/
def replacePair (k v : String) (p : String × String) : String × String :=
  if p.1 == k then (k, v) else p

/-- Python dictionary assignment `d[k] = v`: update the value in place if the
key is present, otherwise append the binding at the end. -/
def dictInsert (r : Row) (k v : String) : Row :=
  if (r.lookup k).isSome then r.map (replacePair k v)
  else r ++ [(k, v)]

/-! ## Fuzzy matcher (rapidfuzz `fuzz.ratio` + `process.extractOne`) -/

/-- One step of the longest-common-subsequence dynamic programming: walking
the row `prev` (scores of the previous query character) to build the scores
after consuming character `ca`.  `cur` is the value just written to the new
row. -/
def lcsGo (ca : Char) : List Char → List Nat → Nat → List Nat
  | [], _, _ => []
  | _ :: _, [], _ => []
  | cb :: bs, pj :: prest, cur =>
    let pj1 := prest.headD 0
    let v := if ca = cb then pj + 1 else max cur pj1
    v :: lcsGo ca bs prest v

/-- The next DP row for the longest common subsequence. -/
def lcsRow (ca : Char) (b : List Char) (prev : List Nat) : List Nat :=
  0 :: lcsGo ca b prev 0

/-- Length of the longest common subsequence of two character lists. -/
def lcs (a b : List Char) : Nat :=
  (a.foldl (fun prev ca => lcsRow ca b prev) (List.replicate (b.length + 1) 0)).getD b.length 0

/-- rapidfuzz's InDel distance: insertions/deletions needed to turn `a` into
`b`, i.e. `|a| + |b| - 2 * lcs a b`. -/
def indelDist (a b : String) : Nat :=
  a.length + b.length - 2 * lcs a.data b.data

/-- rapidfuzz `fuzz.ratio`: the normalized InDel similarity scaled to 0-100,
`100 * (1 - dist / (|a| + |b|))`, and 100 when both strings are empty.
Modelled over ℚ instead of the double used by rapidfuzz. -/
def fuzzRatio (a b : String) : ℚ :=
  let lensum := a.length + b.length
  if lensum = 0 then 100
  else 100 * ((lensum : ℚ) - indelDist a b) / lensum

/-- The loop of rapidfuzz `process.extractOne`: keep the first candidate
attaining the strictly highest score. -/
def extractGo (q : String) : List String → String × ℚ → String × ℚ
  | [], best => best
  | c :: cs, best =>
    let s := fuzzRatio q c
    if best.2 < s then extractGo q cs (c, s) else extractGo q cs best

/-- rapidfuzz `process.extractOne(q, choices, scorer=fuzz.ratio)` without a
score cutoff: `none` only on an empty choice list, otherwise the first
choice with the maximal `fuzz.ratio` score, together with that score. -/
def extractOne (q : String) : List String → Option (String × ℚ)
  | [] => none
  | c :: cs => some (extractGo q cs (c, fuzzRatio q c))

/-- `intento_fuzzy_match` from src/app.py: `None` on an empty reference
list, otherwise run `extractOne` over the reference keys and return
`(id, matched name, score)` when the top score reaches the threshold.  The
reference dictionary is modelled as an association list; the Python
indexing `lista_referencia[match_name]` (which cannot fail, since the match
comes from the keys) is modelled by `List.lookup`, whose `none` branch is
unreachable. -/
def intentoFuzzyMatch (nombreBuscado : String) (listaReferencia : List (String × Int))
    (umbral : ℚ) : Option (Int × String × ℚ) :=
  if listaReferencia = [] then none
  else
    match extractOne nombreBuscado (listaReferencia.map Prod.fst) with
    | none => none
    | some (matchName, score) =>
      if umbral ≤ score then
        match listaReferencia.lookup matchName with
        | some id => some (id, matchName, score)
        | none => none
      else none

/-! ## Registry client: exact name lookup (`obtener_id_por_nombre`) -/

/-- One candidate record returned by the registry's
`rpc/obtenertaxonespornombre` procedure.  `none` models a missing or null
JSON field. -/
structure RegistroNombre where
  nametype : Option String
  taxonid : Option Int
deriving DecidableEq, Repr

/-- The acceptance test of `obtener_id_por_nombre` in src/app.py:
`nt = (registro.get("nametype") or "").strip().lower()` followed by
`"aceptado" in nt or "valido" in nt or "válido" in nt`. -/
def acceptedFlag (r : RegistroNombre) : Bool :=
  let nt := pyLower (pyStrip (r.nametype.getD ""))
  containsSub "aceptado" nt || containsSub "valido" nt || containsSub "válido" nt

/-- `obtener_id_por_nombre` from src/app.py, with the HTTP layer modelled by
the response argument: a transport failure (`.error`) yields `None`; an
empty candidate list yields `None`; otherwise the first record whose
name-type passes `acceptedFlag` wins, and failing that, the first record. -/
def obtenerIdPorNombre (respuesta : Except Unit (List RegistroNombre)) : Option Int :=
  match respuesta with
  | .error _ => none
  | .ok datos =>
    if datos = [] then none
    else
      match datos.find? acceptedFlag with
      | some r => r.taxonid
      | none => (datos.headD ⟨none, none⟩).taxonid

/-- `obtener_id_por_nombre` from src/streamlit_app.py: requires the
name-type to equal the exact string "Aceptado/válido" and returns `None`
when no record matches — there is no fallback to the first record. -/
def obtenerIdPorNombreStreamlit (respuesta : Except Unit (List RegistroNombre)) : Option Int :=
  match respuesta with
  | .error _ => none
  | .ok datos =>
    if datos = [] then none
    else
      match datos.find? (fun r => r.nametype = some "Aceptado/válido") with
      | some r => r.taxonid
      | none => none

/-! ## Registry client: legal status (`obtener_datos_proteccion`) -/

/-- One record of the `rpc/obtenerestadoslegalesportaxonid` response.  For
the fields read with `item.get(key, default)` (dataset, ccaa) the model
distinguishes a missing key (`none`) from a key present with a null value
(`some none`); the other fields are read with plain `item.get(key)`, for
which missing and null coincide. -/
structure LegalRecord where
  idvigente : Option Int
  ambito : Option String
  estadolegal : Option String
  dataset : Option (Option String)
  ccaa : Option (Option String)
deriving DecidableEq, Repr

/-- Python `item.get(key, default)` over a two-level optional field:
the default applies only when the key is missing. -/
def getD2 (f : Option (Option String)) (d : String) : Option String :=
  match f with
  | none => some d
  | some v => v

/-- Python f-string interpolation of `item.get("ccaa", "Desconocida")`:
a missing key gives the default, a null value prints as "None". -/
def pyFmtOptD (f : Option (Option String)) (d : String) : String :=
  match f with
  | none => d
  | some none => "None"
  | some (some s) => s

/-- The `estado = item.get("estadolegal")` / `if not estado: continue`
steps: the status string, `none` when missing, null or empty. -/
def itemEstado (item : LegalRecord) : Option String :=
  match item.estadolegal with
  | some e => if e = "" then none else some e
  | none => none

/-- The column-key derivation of `obtener_datos_proteccion` (src/app.py),
including the final `if columna:` truthiness filter. -/
def itemColumna (item : LegalRecord) : Option String :=
  let c : Option String :=
    if item.ambito = some "Nacional" then getD2 item.dataset "Catálogo Nacional"
    else if item.ambito = some "Autonómico" ∨ item.ambito = some "Regional" then
      some ("Catálogo - " ++ pyFmtOptD item.ccaa "Desconocida")
    else if item.ambito = some "Internacional" then getD2 item.dataset "Convenio Internacional"
    else item.dataset.join
  match c with
  | some s => if s = "" then none else some s
  | none => none

/-- The contribution of one legal record: `none` when the record is skipped
(not in force, no status, or no column key), otherwise its column key and
status string. -/
def claveYEstado (item : LegalRecord) : Option (String × String) :=
  if item.idvigente ≠ some 1 then none
  else
    match itemEstado item with
    | none => none
    | some e =>
      match itemColumna item with
      | none => none
      | some col => some (col, e)

/-- `defaultdict(set)` update `estados_por_col[columna].add(estado)`:
insertion-ordered keys, each mapped to its set of statuses (modelled as a
duplicate-free list in insertion order; only the set of elements matters
because the cell sorts them). -/
def insertMulti (m : List (String × List String)) (k v : String) : List (String × List String) :=
  match m with
  | [] => [(k, [v])]
  | (k', l) :: rest =>
    if k' = k then (k', if v ∈ l then l else l ++ [v]) :: rest
    else (k', l) :: insertMulti rest k v

/-- Processing of one record of the legal-status loop. -/
def addLegalItem (acc : List (String × List String)) (item : LegalRecord) :
    List (String × List String) :=
  match claveYEstado item with
  | none => acc
  | some (col, e) => insertMulti acc col e

/-- `", ".join(sorted(estados)) if estados else "-"`. -/
def joinCell (estados : List String) : String :=
  if estados = [] then "-"
  else String.intercalate ", " (List.insertionSort strLe estados)

/-- `obtener_datos_proteccion` from src/app.py, with the HTTP layer modelled
by the response argument.  On transport failure the row carries the
legal-data error marker; otherwise the in-force records are grouped by
column key and each cell is the sorted, comma-joined set of statuses. -/
def obtenerDatosProteccion (respuesta : Except Unit (List LegalRecord))
    (nombreCientificoBase : String) : Row :=
  match respuesta with
  | .error _ => [("Especie", nombreCientificoBase), ("Error", "Fallo al obtener datos legales")]
  | .ok datosLegales =>
    let m := datosLegales.foldl addLegalItem []
    m.foldl (fun prot p => dictInsert prot p.1 (joinCell p.2)) [("Especie", nombreCientificoBase)]

/-- One record of the legal-status response as consumed by
src/streamlit_app.py.  `estadolegal` is modelled as a plain string: a
missing or null status would make the source raise a `TypeError` inside the
`estado not in protecciones[columna]` substring test, which a total shallow
embedding does not represent; every theorem about this variant uses records
whose status is a string. -/
structure LegalRecordS where
  idvigente : Option Int
  ambito : Option String
  estadolegal : String
  dataset : Option (Option String)
  ccaa : Option (Option String)
deriving DecidableEq, Repr

/-- The column-key derivation of the Streamlit `obtener_datos_proteccion`:
`columna` starts as the empty string, there is no "Regional" case, and the
final `if columna:` truthiness filter discards empty or null keys. -/
def itemColumnaS (item : LegalRecordS) : Option String :=
  let c : Option String :=
    if item.ambito = some "Nacional" then getD2 item.dataset "Catálogo Nacional"
    else if item.ambito = some "Autonómico" then
      some ("Catálogo - " ++ pyFmtOptD item.ccaa "Desconocida")
    else if item.ambito = some "Internacional" then getD2 item.dataset "Convenio Internacional"
    else some ""
  match c with
  | some s => if s = "" then none else some s
  | none => none

/-- One loop step of the Streamlit `obtener_datos_proteccion`: a new column
gets the raw status; an existing column appends ", estado" unless the status
already occurs as a substring of the accumulated cell. -/
def stepProteccionS (prot : Row) (item : LegalRecordS) : Row :=
  if item.idvigente ≠ some 1 then prot
  else
    match itemColumnaS item with
    | none => prot
    | some col =>
      match prot.lookup col with
      | some cur =>
        if cur ≠ "-" then
          if containsSub item.estadolegal cur then prot
          else dictInsert prot col (cur ++ ", " ++ item.estadolegal)
        else dictInsert prot col item.estadolegal
      | none => dictInsert prot col item.estadolegal

/-- `obtener_datos_proteccion` from src/streamlit_app.py. -/
def obtenerDatosProteccionStreamlit (respuesta : Except Unit (List LegalRecordS))
    (nombreCientificoBase : String) : Row :=
  match respuesta with
  | .error _ => [("Especie", nombreCientificoBase), ("Error", "Fallo al obtener datos legales")]
  | .ok datosLegales => datosLegales.foldl stepProteccionS [("Especie", nombreCientificoBase)]

/-! ## Registry client: taxonomic group and common name -/

/-- `obtener_grupo_taxonomico_por_id` from src/app.py: the rows are the
`taxonomicgroup` field of each record of the `v_taxonomia` view (`_get_json`
already folds a transport failure into an empty list); keep the truthy
values and return the first, if any. -/
def obtenerGrupoTaxonomicoPorId (filas : List (Option String)) : Option String :=
  let grupos := filas.filterMap (fun f =>
    match f with
    | some s => if s = "" then none else some s
    | none => none)
  grupos.head?

/-- One record of the `v_nombrescomunes` view. -/
structure ComunRow where
  ididioma : Option Int
  espreferente : Option Bool
  nombreComun : Option String
deriving DecidableEq, Repr

/-- Python `x or None` over an optional string field: `""` collapses to
`None`. -/
def orNone (o : Option String) : Option String :=
  match o with
  | some s => if s = "" then none else some s
  | none => none

/-- `obtener_nombre_comun_por_id` from src/app.py: prefer a Spanish
(`ididioma == 1`) entry flagged preferred, else any Spanish entry, else the
first entry of the response. -/
def obtenerNombreComunPorId (filas : List ComunRow) : Option String :=
  if filas = [] then none
  else
    let esCastellano := filas.filter (fun f => f.ididioma == some 1)
    let prefCast := esCastellano.filter (fun f => f.espreferente == some true)
    match prefCast with
    | f :: _ => orNone f.nombreComun
    | [] =>
      match esCastellano with
      | f :: _ => orNone f.nombreComun
      | [] => orNone ((filas.headD ⟨none, none, none⟩).nombreComun)

/-! ## Resolver (`_proc_nombre`) -/

/-- The correction note `f"Corregido autom. (similitud {score:.0f}%): ..."`.
The float formatting `:.0f` is modelled with `round` on ℚ (the half-even
versus half-away tie of float formatting is confined to this display
string). -/
def formatNotaFuzzy (score : ℚ) (limpio encontrado : String) : String :=
  "Corregido autom. (similitud " ++ toString (round score) ++ "%): \x27" ++ limpio
    ++ "\x27 -> \x27" ++ encontrado ++ "\x27"

/-- The resolution steps 1-2 of `_proc_nombre`: exact lookup result first
(kept when truthy), else fuzzy match against the checklist when it is
non-empty.  Returns the resolved id (possibly still falsy), the note and the
(possibly corrected) clean name. -/
def resolverFuzzy (nombreLimpio : String) (taxonId : Option Int)
    (listaRef : List (String × Int)) : Option Int × String × String :=
  if truthyId taxonId then (taxonId, "-", nombreLimpio)
  else if listaRef ≠ [] then
    match intentoFuzzyMatch nombreLimpio listaRef 85 with
    | some (id, encontrado, score) =>
      (some id, formatNotaFuzzy score nombreLimpio encontrado, encontrado)
    | none => (taxonId, "-", nombreLimpio)
  else (taxonId, "-", nombreLimpio)

/-- The not-found error row of `_proc_nombre` (keyed by the original,
untrimmed input name). -/
def filaNoEncontrada (nombre : String) : Row :=
  [("Especie", nombre), ("Grupo taxonómico", "-"), ("Nombre común", "-"),
   ("Error", "Taxón no encontrado"), ("Notas", "-")]

/-- The attribute-gathering step 3 of `_proc_nombre`: the legal-status row
extended in place with the taxonomic group, the common name and the note. -/
def filaResuelta (respLegal : Except Unit (List LegalRecord))
    (filasTax : List (Option String)) (filasComun : List ComunRow)
    (base nota : String) : Row :=
  let datos := obtenerDatosProteccion respLegal base
  let datos := dictInsert datos "Grupo taxonómico"
    ((obtenerGrupoTaxonomicoPorId filasTax).getD "-")
  let datos := dictInsert datos "Nombre común" ((obtenerNombreComunPorId filasComun).getD "-")
  dictInsert datos "Notas" nota

/-- `_proc_nombre` from src/app.py with all registry responses passed as
arguments: `respExact` is the exact-lookup response for the trimmed name,
`listaRef` the memoized checklist, and `respLegal`, `filasTax`,
`filasComun` the responses the source receives for the resolved taxon id.
Exact lookup first; on a falsy id, fuzzy match against the checklist; on
failure, the not-found error row; otherwise the legal-status row extended
with the taxonomic group, the common name and the fuzzy note. -/
def procNombre (nombre : String) (respExact : Except Unit (List RegistroNombre))
    (listaRef : List (String × Int)) (respLegal : Except Unit (List LegalRecord))
    (filasTax : List (Option String)) (filasComun : List ComunRow) : Row :=
  let fz := resolverFuzzy (pyStrip nombre) (obtenerIdPorNombre respExact) listaRef
  if ¬ truthyId fz.1 then filaNoEncontrada nombre
  else filaResuelta respLegal filasTax filasComun fz.2.2 fz.2.1

/-! ## Batch orchestrator (`generar_tabla_completa`) -/

/-- A pandas data frame: column names plus one list of cell values per row,
aligned with the columns. -/
structure DataFrame where
  cols : List String
  cells : List (List String)
deriving DecidableEq, Repr

/-- The value of row `i` at column `c`. -/
def DataFrame.cell (df : DataFrame) (i : Nat) (c : String) : Option String :=
  match df.cells[i]? with
  | some row => (df.cols.zip row).lookup c
  | none => none

/-- Accumulate the keys of one row that were not seen yet, in order. -/
def addKeys (acc : List String) (r : Row) : List String :=
  r.foldl (fun a p => if a.contains p.1 then a else a ++ [p.1]) acc

/-- The columns `pd.DataFrame(list_of_dicts)` produces: every key of every
row, in order of first appearance. -/
def unionCols (rows : List Row) : List String :=
  rows.foldl addKeys []

/-- The bucketing test `fila.get("Error") and fila["Error"] != "-"`: an
`Error` key present with a truthy value different from "-". -/
def hasError (fila : Row) : Bool :=
  match fila.lookup "Error" with
  | some e => e != "" && e != "-"
  | none => false

/-- `resultados_exitosos + resultados_fallidos`: the rows reordered with the
successes first. -/
def datosParaTabla (resultados : List Row) : List Row :=
  resultados.filter (fun fila => !(hasError fila)) ++ resultados.filter hasError

/-- The obligatory columns added by the final fix of
`generar_tabla_completa`, in loop order. -/
def colsObligatorias : List String :=
  ["Error", "Notas", "Especie", "Grupo taxonómico", "Nombre común"]

/-- The columns of the final frame: every key of every row in first-seen
order, then the missing obligatory columns in loop order. -/
def tablaCols (resultados : List Row) : List String :=
  unionCols (datosParaTabla resultados) ++
    colsObligatorias.filter (fun c => !(decide (c ∈ unionCols (datosParaTabla resultados))))

/-- The aggregation stage of `generar_tabla_completa` from src/app.py:
`resultados` are the per-item rows in the completion order of the worker
pool (completion order is nondeterministic and is taken as an input here).
Successes are listed before failures, the frame's columns are the union of
all row keys plus the five obligatory columns, and missing cells are filled
with "-" (`df.fillna('-')`). -/
def generarTablaCompleta (resultados : List Row) : DataFrame :=
  if datosParaTabla resultados = [] then ⟨[], []⟩
  else
    let cols := tablaCols resultados
    ⟨cols, (datosParaTabla resultados).map (fun r => cols.map (fun c => (r.lookup c).getD "-"))⟩

/-! ## Rate limiter (`_get_json` throttle) -/

/-- The five registry query functions of src/app.py.  The spec also names a
conservation-status function, but no such function exists in the source. -/
inductive RegistryFn where
  | idPorNombre
  | nombrePorId
  | datosProteccion
  | grupoTaxonomico
  | nombreComun
deriving DecidableEq, Repr

/-- Which HTTP helper each registry function uses, read off src/app.py:
`obtener_grupo_taxonomico_por_id` and `obtener_nombre_comun_por_id` call
`_get_json`, which sleeps under the global lock before issuing the request;
`obtener_id_por_nombre`, `obtener_nombre_por_id` and
`obtener_datos_proteccion` call `_session.get` directly and never touch the
throttle. -/
def usesThrottle : RegistryFn → Bool
  | .grupoTaxonomico => true
  | .nombreComun => true
  | _ => false

/-- The throttle state: the `_last_call` timestamp guarded by `_lock`. -/
structure ThrottleState where
  lastCall : ℚ
deriving DecidableEq, Repr

/-- The `_get_json` throttle body: compute the remaining wait, sleep it if
positive, stamp `_last_call`, then emit the request.  The request is
modelled as emitted at the stamped time. -/
def throttledRequest (minInterval now : ℚ) (st : ThrottleState) : ℚ × ThrottleState :=
  let wait := minInterval - (now - st.lastCall)
  let emit := if 0 < wait then now + wait else now
  (emit, ⟨emit⟩)

/-- Run a sequence of registry calls, each given by the function invoked and
the time at which it reaches the HTTP layer; returns the emission times of
the outbound requests.  Calls to the throttled helper thread the shared
state; direct `_session.get` calls are emitted immediately and leave the
throttle state untouched. -/
def runCalls (minInterval : ℚ) : List (RegistryFn × ℚ) → ThrottleState → List ℚ
  | [], _ => []
  | (f, t) :: rest, st =>
    if usesThrottle f then
      let r := throttledRequest minInterval t st
      r.1 :: runCalls minInterval rest r.2
    else t :: runCalls minInterval rest st

/-! ## Column sequencer (`ordenar_columnas_df`) -/

/-- `BASE_COLS - {"Error"}`, the columns excluded from the legal-column
scan. -/
def baseExclude : List String :=
  ["Especie", "Grupo taxonómico", "Nombre común", "protegido", "Notas"]

/-- The fixed leading columns of `ordenar_columnas_df`. -/
def fixedCols : List String := ["Especie", "Grupo taxonómico", "Nombre común", "Notas"]

/-- `es_nacional` from src/app.py. -/
def esNacional (c : String) : Bool :=
  let cl := pyNormalize c
  cl == "catalogo nacional" || containsSub "nacional" cl

/-- The ordered international substring patterns with their priorities. -/
def patronesIntl : List (String × Nat) :=
  [("directiva aves", 1), ("aves", 2), ("directiva habitat", 3), ("habitat", 4),
   ("habitats", 4), ("cites", 5), ("berna", 6), ("bonn", 7), ("cms", 7), ("aewa", 8)]

/-- `intl_priority` from src/app.py: the priority of the first matching
pattern, 100 when none matches. -/
def intlPriority (name : String) : Nat :=
  let n := pyNormalize name
  match patronesIntl.find? (fun pp => containsSub pp.1 n) with
  | some pp => pp.2
  | none => 100

/-- `is_cat_nacional` from src/app.py. -/
def isCatNacional (name : String) : Bool :=
  pyNormalize name == "catalogo nacional"

/-- The fixed enumeration of autonomous regions. -/
def ccaaOrder : List String :=
  ["Andalucía", "Aragón", "Asturias", "Illes Balears", "Canarias", "Cantabria",
   "Castilla-La Mancha", "Castilla y León", "Cataluña", "Ceuta", "Comunitat Valenciana",
   "Extremadura", "Galicia", "La Rioja", "Comunidad de Madrid", "Melilla",
   "Región de Murcia", "Navarra", "País Vasco"]

/-- `rank_ccaa.get(x, 999)`: the position of an exact "Catálogo - region"
label in the fixed enumeration, 999 otherwise. -/
def rankCcaa (x : String) : Nat :=
  let labels := ccaaOrder.map (fun n => "Catálogo - " ++ n)
  if x ∈ labels then labels.indexOf x else 999

/-- The sort key ordering `key=lambda x: (intl_priority(x), x)`. -/
def intlLe (a b : String) : Prop :=
  intlPriority a < intlPriority b ∨ (intlPriority a = intlPriority b ∧ strLe a b)

instance : DecidableRel intlLe := fun a b =>
  inferInstanceAs (Decidable (intlPriority a < intlPriority b ∨
    (intlPriority a = intlPriority b ∧ strLe a b)))

/-- The national sort key `(0 if is_cat_nacional(x) else 1, x)`. -/
def nacKey (x : String) : Nat :=
  if isCatNacional x then 0 else 1

/-- The sort ordering for national columns. -/
def nacLe (a b : String) : Prop :=
  nacKey a < nacKey b ∨ (nacKey a = nacKey b ∧ strLe a b)

instance : DecidableRel nacLe := fun a b =>
  inferInstanceAs (Decidable (nacKey a < nacKey b ∨ (nacKey a = nacKey b ∧ strLe a b)))

/-- The sort ordering for autonomous-region columns,
`key=lambda x: (rank_ccaa.get(x, 999), x)`. -/
def autonLe (a b : String) : Prop :=
  rankCcaa a < rankCcaa b ∨ (rankCcaa a = rankCcaa b ∧ strLe a b)

instance : DecidableRel autonLe := fun a b =>
  inferInstanceAs (Decidable (rankCcaa a < rankCcaa b ∨ (rankCcaa a = rankCcaa b ∧ strLe a b)))

/-- Python `c.startswith(pre)`. -/
def pyStartsWith (c pre : String) : Bool :=
  charsPre pre.data c.data

/-- The non-base, non-error columns scanned for legal classification. -/
def legalesDe (cols : List String) : List String :=
  cols.filter (fun c => !(baseExclude.contains c) && c != "Error")

/-- The autonomous-region columns: legal columns starting with
"Catálogo - ". -/
def autonDe (cols : List String) : List String :=
  (legalesDe cols).filter (fun c => pyStartsWith c "Catálogo - ")

/-- The national columns: remaining legal columns passing `es_nacional`. -/
def nacionalDe (cols : List String) : List String :=
  (legalesDe cols).filter (fun c => !((autonDe cols).contains c) && esNacional c)

/-- The international columns: the remaining legal columns. -/
def internacionalDe (cols : List String) : List String :=
  (legalesDe cols).filter
    (fun c => !((autonDe cols).contains c) && !((nacionalDe cols).contains c))

/-- The `ordered` list before leftovers: fixed leading columns present, then
the three sorted legal groups.  Python's stable `sorted` with a
`(key, name)` tuple is modelled by `insertionSort` with the corresponding
total lexicographic relation. -/
def orderedDe (cols : List String) : List String :=
  fixedCols.filter (fun c => cols.contains c) ++
    List.insertionSort intlLe (internacionalDe cols) ++
    List.insertionSort nacLe (nacionalDe cols) ++
    List.insertionSort autonLe (autonDe cols)

/-- The columns not yet placed, with the internal "protegido" column
dropped. -/
def leftoverDe (cols : List String) : List String :=
  cols.filter (fun c => !((orderedDe cols).contains c) && c != "protegido")

/-- The column ordering computed by `ordenar_columnas_df` from the column
list: fixed leading columns, international, national, autonomous, leftovers,
with "Error" moved to the end and "protegido" dropped. -/
def ordenarColumnas (cols : List String) : List String :=
  (if "Error" ∈ leftoverDe cols then
    orderedDe cols ++ (leftoverDe cols).erase "Error" ++ ["Error"]
  else orderedDe cols ++ leftoverDe cols).filter (fun c => cols.contains c)

/-- `df.reindex(columns=newCols)`: select the named columns in the given
order (the "-" default is never taken when every new column is an existing
one and the rows are aligned, which all theorems below assume). -/
def reindex (df : DataFrame) (newCols : List String) : DataFrame :=
  ⟨newCols, df.cells.map (fun row => newCols.map (fun c => ((df.cols.zip row).lookup c).getD "-"))⟩

/-- `ordenar_columnas_df` from src/app.py: an empty frame is returned
unchanged (a copy), otherwise the frame is reindexed with the computed
column order. -/
def ordenarColumnasDf (df : DataFrame) : DataFrame :=
  if df.cells = [] ∨ df.cols = [] then df
  else reindex df (ordenarColumnas df.cols)

/-! ## Specification lemmas for the fuzzy matcher -/

theorem extractGo_spec (q : String) (cs : List String) : ∀ best : String × ℚ,
    best.2 = fuzzRatio q best.1 →
    (extractGo q cs best).2 = fuzzRatio q (extractGo q cs best).1 ∧
    ((extractGo q cs best).1 = best.1 ∨ (extractGo q cs best).1 ∈ cs) ∧
    best.2 ≤ (extractGo q cs best).2 ∧
    ∀ c ∈ cs, fuzzRatio q c ≤ (extractGo q cs best).2 := by
  induction cs with
  | nil =>
    intro best h
    exact ⟨h, Or.inl rfl, le_refl _, by simp⟩
  | cons c cs ih =>
    intro best h
    rw [show extractGo q (c :: cs) best
        = if best.2 < fuzzRatio q c then extractGo q cs (c, fuzzRatio q c)
          else extractGo q cs best from rfl]
    by_cases hlt : best.2 < fuzzRatio q c
    · rw [if_pos hlt]
      obtain ⟨h1, h2, h3, h4⟩ := ih (c, fuzzRatio q c) rfl
      refine ⟨h1, ?_, le_trans (le_of_lt hlt) h3, ?_⟩
      · rcases h2 with h2 | h2
        · exact Or.inr (h2 ▸ List.mem_cons_self c cs)
        · exact Or.inr (List.mem_cons_of_mem _ h2)
      · intro x hx
        rcases List.mem_cons.mp hx with rfl | hx
        · exact h3
        · exact h4 x hx
    · rw [if_neg hlt]
      obtain ⟨h1, h2, h3, h4⟩ := ih best h
      refine ⟨h1, ?_, h3, ?_⟩
      · rcases h2 with h2 | h2
        · exact Or.inl h2
        · exact Or.inr (List.mem_cons_of_mem _ h2)
      · intro x hx
        rcases List.mem_cons.mp hx with rfl | hx
        · exact le_trans (not_lt.mp hlt) h3
        · exact h4 x hx

theorem extractOne_spec (q : String) (l : List String) (h : l ≠ []) :
    ∃ name, extractOne q l = some (name, fuzzRatio q name) ∧ name ∈ l ∧
      ∀ c ∈ l, fuzzRatio q c ≤ fuzzRatio q name := by
  cases l with
  | nil => exact absurd rfl h
  | cons c cs =>
    obtain ⟨h1, h2, h3, h4⟩ := extractGo_spec q cs (c, fuzzRatio q c) rfl
    refine ⟨(extractGo q cs (c, fuzzRatio q c)).1, ?_, ?_, ?_⟩
    · show some (extractGo q cs (c, fuzzRatio q c)) = _
      rw [show extractGo q cs (c, fuzzRatio q c)
          = ((extractGo q cs (c, fuzzRatio q c)).1, (extractGo q cs (c, fuzzRatio q c)).2)
          from rfl, h1]
    · rcases h2 with h2 | h2
      · exact h2 ▸ List.mem_cons_self c cs
      · exact List.mem_cons_of_mem _ h2
    · intro x hx
      rcases List.mem_cons.mp hx with rfl | hx
      · exact h1 ▸ h3
      · exact h1 ▸ h4 x hx

theorem lookup_isSome_of_mem_keys {β : Type} (l : List (String × β)) (k : String)
    (h : k ∈ l.map Prod.fst) : (l.lookup k).isSome := by
  induction l with
  | nil => simp at h
  | cons p rest ih =>
    obtain ⟨a, b⟩ := p
    by_cases hk : k = a
    · simp [List.lookup, hk]
    · have h' : k ∈ rest.map Prod.fst := by
        simp only [List.map_cons, List.mem_cons] at h
        exact h.resolve_left hk
      simpa only [List.lookup, beq_false_of_ne hk] using ih h'

theorem mem_of_lookup_eq_some {β : Type} {l : List (String × β)} {k : String} {v : β}
    (h : l.lookup k = some v) : (k, v) ∈ l := by
  induction l with
  | nil => simp [List.lookup] at h
  | cons p rest ih =>
    obtain ⟨a, b⟩ := p
    by_cases hk : k = a
    · subst hk
      simp only [List.lookup, beq_self_eq_true] at h
      exact (Option.some.injEq _ _).mp h ▸ List.mem_cons_self _ _
    · simp only [List.lookup, beq_false_of_ne hk] at h
      exact List.mem_cons_of_mem _ (ih h)

/-- Evaluation helper: `fuzzRatio` at concrete strings, given the two
integer quantities it is built from. -/
theorem fuzzRatio_eval (a b : String) (d s : ℕ) (hd : indelDist a b = d)
    (hs : a.length + b.length = s) (h0 : ¬ s = 0) :
    fuzzRatio a b = 100 * ((s : ℚ) - (d : ℚ)) / (s : ℚ) := by
  simp only [fuzzRatio, hd, hs, if_neg h0]

/-- A general reduction for `intentoFuzzyMatch` once the winner of
`extractOne` is known. -/
theorem intentoFuzzyMatch_eq (q : String) (cl : List (String × Int)) (umbral : ℚ)
    (h : ¬ cl = []) (name : String)
    (he : extractOne q (cl.map Prod.fst) = some (name, fuzzRatio q name)) :
    intentoFuzzyMatch q cl umbral =
      if umbral ≤ fuzzRatio q name then
        (cl.lookup name).map (fun id => (id, name, fuzzRatio q name))
      else none := by
  simp only [intentoFuzzyMatch, if_neg h, he]
  by_cases hu : umbral ≤ fuzzRatio q name
  · simp only [if_pos hu]
    cases hl : cl.lookup name <;> simp
  · simp only [if_neg hu]

/-- Claim C1, counterexample.  The claim asserts that `intento_fuzzy_match`
scores candidates by partial-substring similarity and only returns a
candidate after an asymmetric validation: when the candidate is longer than
the query, the full-string similarity between the query and the candidate
truncated to the query's length must reach the threshold.  At the concrete
query "abcdefghij" with the single candidate "xyzabcdefghij" the function
returns the candidate although the candidate is longer and the truncated
full-string similarity is 70 < 85, so no such validation is performed. -/
theorem C1_counterexample :
    intentoFuzzyMatch "abcdefghij" [("xyzabcdefghij", 1)] 85 =
      some (1, "xyzabcdefghij", 2000 / 23) ∧
    "abcdefghij".length < "xyzabcdefghij".length ∧
    fuzzRatio "abcdefghij" (pyTake "xyzabcdefghij" "abcdefghij".length) < 85 := by
  have hr : fuzzRatio "abcdefghij" "xyzabcdefghij" = 2000 / 23 := by
    rw [fuzzRatio_eval _ _ 3 23 (by decide) (by decide) (by norm_num)]
    norm_num
  have hr2 : fuzzRatio "abcdefghij" (pyTake "xyzabcdefghij" 10) = 70 := by
    rw [fuzzRatio_eval _ _ 6 20 (by decide) (by decide) (by norm_num)]
    norm_num
  refine ⟨?_, by decide, ?_⟩
  · rw [intentoFuzzyMatch_eq "abcdefghij" [("xyzabcdefghij", 1)] 85 (by simp)
        "xyzabcdefghij" rfl, hr,
      if_pos (by norm_num : (85 : ℚ) ≤ 2000 / 23)]
    rfl
  · show fuzzRatio "abcdefghij" (pyTake "xyzabcdefghij" 10) < 85
    rw [hr2]
    norm_num

/-- Claim C1 (amended): `intento_fuzzy_match` scores every candidate with the
full-string similarity `fuzz.ratio` (not a partial-substring scorer), selects
a candidate with the maximal such score, and returns it exactly when that
score reaches the threshold — there is no further asymmetric validation
step; the guard against short-substring false positives is the use of the
full-string score itself. -/
theorem C1_fuzzy_full_ratio_only (q : String) (cl : List (String × Int)) (umbral : ℚ)
    (h : cl ≠ []) :
    ∃ name, name ∈ cl.map Prod.fst ∧
      (∀ n ∈ cl.map Prod.fst, fuzzRatio q n ≤ fuzzRatio q name) ∧
      intentoFuzzyMatch q cl umbral =
        if umbral ≤ fuzzRatio q name then
          (cl.lookup name).map (fun id => (id, name, fuzzRatio q name))
        else none := by
  have hkeys : cl.map Prod.fst ≠ [] := by
    cases cl with
    | nil => exact absurd rfl h
    | cons p rest => simp
  obtain ⟨name, he, hmem, hmax⟩ := extractOne_spec q (cl.map Prod.fst) hkeys
  exact ⟨name, hmem, hmax, intentoFuzzyMatch_eq q cl umbral h name he⟩

/-- Claim C1, witness: the amended theorem applied to the query "Fusinus"
against the single checklist candidate "Gamusinus maximus Author, 1900". -/
theorem C1_witness :
    ∃ name, name ∈ [("Gamusinus maximus Author, 1900", (2 : Int))].map Prod.fst ∧
      (∀ n ∈ [("Gamusinus maximus Author, 1900", (2 : Int))].map Prod.fst,
        fuzzRatio "Fusinus" n ≤ fuzzRatio "Fusinus" name) ∧
      intentoFuzzyMatch "Fusinus" [("Gamusinus maximus Author, 1900", (2 : Int))] 85 =
        if 85 ≤ fuzzRatio "Fusinus" name then
          ([("Gamusinus maximus Author, 1900", (2 : Int))].lookup name).map
            (fun id => (id, name, fuzzRatio "Fusinus" name))
        else none :=
  C1_fuzzy_full_ratio_only "Fusinus" [("Gamusinus maximus Author, 1900", 2)] 85 (by simp)

/-- Claim C9: with threshold 85, `intento_fuzzy_match` resolves exactly when
the top `fuzz.ratio` score over the checklist reaches 85 — a top candidate
scoring exactly 85 is accepted and a top score of 84 is rejected. -/
theorem C9_threshold_boundary (q : String) (cl : List (String × Int)) (h : cl ≠ []) :
    (intentoFuzzyMatch q cl 85).isSome = true ↔ ∃ p ∈ cl, 85 ≤ fuzzRatio q p.1 := by
  have hkeys : cl.map Prod.fst ≠ [] := by
    cases cl with
    | nil => exact absurd rfl h
    | cons p rest => simp
  obtain ⟨name, he, hmem, hmax⟩ := extractOne_spec q (cl.map Prod.fst) hkeys
  rw [intentoFuzzyMatch_eq q cl 85 h name he]
  constructor
  · intro hs
    by_cases hu : (85 : ℚ) ≤ fuzzRatio q name
    · obtain ⟨p, hp, hp1⟩ := List.mem_map.mp hmem
      exact ⟨p, hp, by rw [hp1]; exact hu⟩
    · rw [if_neg hu] at hs
      simp at hs
  · rintro ⟨p, hp, hp85⟩
    have hu : (85 : ℚ) ≤ fuzzRatio q name :=
      le_trans hp85 (hmax p.1 (List.mem_map.mpr ⟨p, hp, rfl⟩))
    rw [if_pos hu]
    have hsome := lookup_isSome_of_mem_keys cl name hmem
    cases hl : cl.lookup name with
    | none => rw [hl] at hsome; simp at hsome
    | some id => simp

/-- Claim C9, witness: a pair scoring exactly 85 is accepted and a pair
scoring 84 returns none. -/
theorem C9_witness :
    ((intentoFuzzyMatch "aaaaaaaaaaaaaaaaaaaa" [("aaaaaaaaaaaaaaaaabbb", (5 : Int))] 85).isSome
        = true ↔
      ∃ p ∈ [("aaaaaaaaaaaaaaaaabbb", (5 : Int))],
        85 ≤ fuzzRatio "aaaaaaaaaaaaaaaaaaaa" p.1) ∧
    intentoFuzzyMatch "aaaaaaaaaaaaaaaaaaaaaaaaa" [("aaaaaaaaaaaaaaaaaaaaabbbb", (6 : Int))] 85
      = none :=
  ⟨C9_threshold_boundary "aaaaaaaaaaaaaaaaaaaa" [("aaaaaaaaaaaaaaaaabbb", 5)] (by simp),
   by
    have hr : fuzzRatio "aaaaaaaaaaaaaaaaaaaaaaaaa" "aaaaaaaaaaaaaaaaaaaaabbbb" = 84 := by
      rw [fuzzRatio_eval _ _ 8 50 (by decide) (by decide) (by norm_num)]
      norm_num
    rw [intentoFuzzyMatch_eq "aaaaaaaaaaaaaaaaaaaaaaaaa"
        [("aaaaaaaaaaaaaaaaaaaaabbbb", 6)] 85 (by simp) "aaaaaaaaaaaaaaaaaaaaabbbb" rfl, hr,
      if_neg (by norm_num : ¬ (85 : ℚ) ≤ 84)]⟩


/-! ## Dictionary lemmas -/

theorem lookup_eq_none_of_not_mem_keys {β : Type} (l : List (String × β)) (k : String)
    (h : k ∉ l.map Prod.fst) : l.lookup k = none := by
  cases hl : l.lookup k with
  | none => rfl
  | some v =>
    exact absurd (List.mem_map.mpr ⟨(k, v), mem_of_lookup_eq_some hl, rfl⟩) h

theorem lookup_cons_eq {β : Type} (a : String) (b : β) (l : List (String × β)) :
    List.lookup a ((a, b) :: l) = some b := by
  simp [List.lookup]

theorem lookup_cons_ne {β : Type} {k a : String} (b : β) (l : List (String × β))
    (h : ¬ k = a) : List.lookup k ((a, b) :: l) = List.lookup k l := by
  simp [List.lookup, beq_false_of_ne h]

theorem replacePair_eq (k v a b : String) (h : a = k) : replacePair k v (a, b) = (k, v) := by
  simp [replacePair, h]

theorem replacePair_ne (k v a b : String) (h : ¬ a = k) : replacePair k v (a, b) = (a, b) := by
  simp [replacePair, beq_false_of_ne h]

theorem replacePair_fst (k v : String) (p : String × String) :
    (replacePair k v p).1 = p.1 := by
  obtain ⟨a, b⟩ := p
  by_cases ha : a = k
  · rw [replacePair_eq k v a b ha, ha]
  · rw [replacePair_ne k v a b ha]

theorem lookup_mapReplace_ne (r : Row) (k v k' : String) (h : ¬ k' = k) :
    (r.map (replacePair k v)).lookup k' = r.lookup k' := by
  induction r with
  | nil => rfl
  | cons p rest ih =>
    obtain ⟨a, b⟩ := p
    rw [List.map_cons]
    by_cases ha : a = k
    · rw [replacePair_eq k v a b ha, lookup_cons_ne v _ h,
        lookup_cons_ne b rest (fun he => h (he.trans ha)), ih]
    · rw [replacePair_ne k v a b ha]
      by_cases hk : k' = a
      · subst hk
        rw [lookup_cons_eq, lookup_cons_eq]
      · rw [lookup_cons_ne b _ hk, lookup_cons_ne b rest hk, ih]

theorem lookup_mapReplace_eq (r : Row) (k v : String) (h : (r.lookup k).isSome) :
    (r.map (replacePair k v)).lookup k = some v := by
  induction r with
  | nil => simp [List.lookup] at h
  | cons p rest ih =>
    obtain ⟨a, b⟩ := p
    rw [List.map_cons]
    by_cases ha : a = k
    · rw [replacePair_eq k v a b ha, lookup_cons_eq]
    · have hne : ¬ k = a := fun he => ha he.symm
      rw [lookup_cons_ne b rest hne] at h
      rw [replacePair_ne k v a b ha, lookup_cons_ne b _ hne, ih h]

theorem lookup_append_right {β : Type} (r : List (String × β)) (k : String) (v : β)
    (h : r.lookup k = none) : (r ++ [(k, v)]).lookup k = some v := by
  induction r with
  | nil => simp [List.lookup]
  | cons p rest ih =>
    obtain ⟨a, b⟩ := p
    by_cases ha : k = a
    · rw [List.lookup, beq_iff_eq.mpr ha] at h
      exact absurd h (by simp)
    · rw [List.lookup, beq_false_of_ne ha] at h
      simpa only [List.cons_append, List.lookup, beq_false_of_ne ha] using ih h

theorem lookup_append_ne {β : Type} (r : List (String × β)) (k : String) (v : β)
    (k' : String) (h : ¬ k' = k) : (r ++ [(k, v)]).lookup k' = r.lookup k' := by
  induction r with
  | nil => simp [List.lookup, beq_false_of_ne h]
  | cons p rest ih =>
    obtain ⟨a, b⟩ := p
    by_cases ha : k' = a
    · simp [List.lookup, beq_iff_eq.mpr ha]
    · simpa only [List.cons_append, List.lookup, beq_false_of_ne ha] using ih

/-- `dictInsert` updates exactly the requested key. -/
theorem dictInsert_lookup (r : Row) (k v k' : String) :
    (dictInsert r k v).lookup k' = if k' = k then some v else r.lookup k' := by
  unfold dictInsert
  by_cases hs : (r.lookup k).isSome
  · rw [if_pos hs]
    by_cases hk : k' = k
    · subst hk
      rw [if_pos rfl, lookup_mapReplace_eq r k' v hs]
    · rw [if_neg hk, lookup_mapReplace_ne r k v k' hk]
  · rw [if_neg hs]
    by_cases hk : k' = k
    · subst hk
      rw [if_pos rfl, lookup_append_right r k' v (Option.not_isSome_iff_eq_none.mp hs)]
    · rw [if_neg hk, lookup_append_ne r k v k' hk]

/-- `dictInsert` leaves the key set unchanged when the key is present and
appends it otherwise. -/
theorem dictInsert_keys (r : Row) (k v : String) :
    (dictInsert r k v).map Prod.fst =
      if (r.lookup k).isSome then r.map Prod.fst else r.map Prod.fst ++ [k] := by
  unfold dictInsert
  by_cases hs : (r.lookup k).isSome
  · rw [if_pos hs, if_pos hs, List.map_map]
    exact List.map_congr_left (fun p _ => replacePair_fst k v p)
  · rw [if_neg hs, if_neg hs, List.map_append]
    rfl

/-- `insertMulti` updates exactly the requested key, deduplicating the
added value. -/
theorem insertMulti_lookup (m : List (String × List String)) (k v k' : String) :
    (insertMulti m k v).lookup k' =
      if k' = k then
        some (match m.lookup k with
              | some l => if v ∈ l then l else l ++ [v]
              | none => [v])
      else m.lookup k' := by
  induction m with
  | nil =>
    by_cases hk : k' = k
    · simp [insertMulti, List.lookup, hk]
    · simp [insertMulti, List.lookup, beq_false_of_ne hk, hk]
  | cons p rest ih =>
    obtain ⟨a, l⟩ := p
    rw [insertMulti]
    by_cases ha : a = k
    · subst ha
      by_cases hk : k' = a
      · subst hk
        simp [List.lookup]
      · simp [List.lookup, beq_false_of_ne hk, hk]
    · rw [if_neg ha]
      have hak : ¬ k = a := fun he => ha he.symm
      rw [lookup_cons_ne l rest hak]
      by_cases hk : k' = a
      · rw [hk, lookup_cons_eq, if_neg ha, lookup_cons_eq]
      · rw [lookup_cons_ne l _ hk, lookup_cons_ne l rest hk, ih]

/-- `insertMulti` adds the key at the end when absent and keeps the key list
otherwise. -/
theorem insertMulti_keys (m : List (String × List String)) (k v : String) :
    (insertMulti m k v).map Prod.fst =
      if k ∈ m.map Prod.fst then m.map Prod.fst else m.map Prod.fst ++ [k] := by
  induction m with
  | nil => simp [insertMulti]
  | cons p rest ih =>
    obtain ⟨a, l⟩ := p
    rw [insertMulti]
    by_cases ha : a = k
    · subst ha
      simp
    · have hka : ¬ k = a := fun he => ha he.symm
      by_cases hm : k ∈ rest.map Prod.fst
      · simp [if_neg ha, ih, hm, hka]
      · simp [if_neg ha, ih, hm, hka]

theorem insertMulti_keys_nodup (m : List (String × List String)) (k v : String)
    (h : (m.map Prod.fst).Nodup) : ((insertMulti m k v).map Prod.fst).Nodup := by
  rw [insertMulti_keys]
  by_cases hm : k ∈ m.map Prod.fst
  · rwa [if_pos hm]
  · rw [if_neg hm]
    exact List.Nodup.append h (List.nodup_singleton k) (by simpa using hm)

/-! ## The sorting order -/

theorem charListLe_cons_self (a : Char) (as bs : List Char) :
    charListLe (a :: as) (a :: bs) = charListLe as bs := by
  simp [charListLe]

theorem charListLe_cons_ne (a b : Char) (as bs : List Char) (h : ¬ a = b) :
    charListLe (a :: as) (b :: bs) = decide (a < b) := by
  simp [charListLe, h]

theorem charListLe_total : ∀ as bs : List Char, charListLe as bs = true ∨ charListLe bs as = true
  | [], _ => Or.inl rfl
  | _ :: _, [] => Or.inr rfl
  | a :: as, b :: bs => by
    by_cases hab : a = b
    · subst hab
      rw [charListLe_cons_self, charListLe_cons_self]
      exact charListLe_total as bs
    · have hba : ¬ b = a := fun he => hab he.symm
      rw [charListLe_cons_ne a b as bs hab, charListLe_cons_ne b a bs as hba]
      rcases lt_trichotomy a b with h | h | h
      · exact Or.inl (by simpa using h)
      · exact absurd h hab
      · exact Or.inr (by simpa using h)

theorem charListLe_trans : ∀ as bs cs : List Char,
    charListLe as bs = true → charListLe bs cs = true → charListLe as cs = true
  | [], _, _, _, _ => rfl
  | _ :: _, [], _, h, _ => by simp [charListLe] at h
  | _ :: _, _ :: _, [], _, h => by simp [charListLe] at h
  | a :: as, b :: bs, c :: cs, h1, h2 => by
    by_cases hab : a = b
    · subst hab
      by_cases hac : a = c
      · subst hac
        rw [charListLe_cons_self] at h1 h2 ⊢
        exact charListLe_trans as bs cs h1 h2
      · rw [charListLe_cons_ne a c bs cs hac] at h2
        rw [charListLe_cons_ne a c as cs hac]
        exact h2
    · have hab' : a < b := by
        rw [charListLe_cons_ne a b as bs hab] at h1
        simpa using h1
      by_cases hbc : b = c
      · subst hbc
        rw [charListLe_cons_ne a b as cs hab]
        simpa using hab'
      · have hbc' : b < c := by
          rw [charListLe_cons_ne b c bs cs hbc] at h2
          simpa using h2
        have hac : a < c := lt_trans hab' hbc'
        rw [charListLe_cons_ne a c as cs (ne_of_lt hac)]
        simpa using hac

instance : IsTotal String strLe :=
  ⟨fun a b => charListLe_total a.data b.data⟩

instance : IsTrans String strLe :=
  ⟨fun a b c => charListLe_trans a.data b.data c.data⟩

/-! ## Legal-status fold lemmas -/

/-- The row-building fold of `obtener_datos_proteccion` looks up to the
grouped map when the column is a group key and to the initial row
otherwise. -/
theorem foldl_dictInsert_lookup (m : List (String × List String)) (prot : Row) (col : String)
    (hnd : (m.map Prod.fst).Nodup) :
    (m.foldl (fun prot p => dictInsert prot p.1 (joinCell p.2)) prot).lookup col =
      match m.lookup col with
      | some l => some (joinCell l)
      | none => prot.lookup col := by
  induction m generalizing prot with
  | nil => rfl
  | cons p rest ih =>
    obtain ⟨a, l⟩ := p
    rw [List.foldl_cons]
    have hnd' : (rest.map Prod.fst).Nodup := (List.nodup_cons.mp (by simpa using hnd)).2
    have hka : a ∉ rest.map Prod.fst := (List.nodup_cons.mp (by simpa using hnd)).1
    rw [ih (dictInsert prot a (joinCell l)) hnd']
    by_cases hc : col = a
    · subst hc
      rw [lookup_eq_none_of_not_mem_keys rest col hka, lookup_cons_eq]
      simp [dictInsert_lookup]
    · rw [lookup_cons_ne l rest hc]
      cases hr : rest.lookup col with
      | some l' => simp
      | none => simp [dictInsert_lookup, hc]

/-- A record contributes a status to a column when it is in force and its
derived column key and status are the given ones. -/
def contributes (datos : List LegalRecord) (col e : String) : Prop :=
  ∃ item ∈ datos, claveYEstado item = some (col, e)

theorem contributes_nil (col e : String) : ¬ contributes [] col e := by
  rintro ⟨item, hm, _⟩
  simp at hm

theorem contributes_cons (item : LegalRecord) (rest : List LegalRecord) (col e : String) :
    contributes (item :: rest) col e ↔
      claveYEstado item = some (col, e) ∨ contributes rest col e := by
  constructor
  · rintro ⟨it, hm, hc⟩
    rcases List.mem_cons.mp hm with rfl | hm
    · exact Or.inl hc
    · exact Or.inr ⟨it, hm, hc⟩
  · rintro (hc | ⟨it, hm, hc⟩)
    · exact ⟨item, List.mem_cons_self _ _, hc⟩
    · exact ⟨it, List.mem_cons_of_mem _ hm, hc⟩

/-- The list an accumulated group map holds for a column (empty when the
column is absent). -/
def lookupList (m : List (String × List String)) (col : String) : List String :=
  (m.lookup col).getD []

/-- Well-formedness of the group map is preserved by the legal-status fold:
every stored list is nonempty and duplicate-free. -/
theorem foldl_addLegal_wf (datos : List LegalRecord) :
    ∀ acc : List (String × List String),
    (∀ col l, acc.lookup col = some l → l ≠ [] ∧ l.Nodup) →
    ∀ col l, (datos.foldl addLegalItem acc).lookup col = some l → l ≠ [] ∧ l.Nodup := by
  induction datos with
  | nil => exact fun acc h => h
  | cons item rest ih =>
    intro acc hacc col l
    rw [List.foldl_cons]
    refine ih (addLegalItem acc item) ?_ col l
    intro c l' hl'
    unfold addLegalItem at hl'
    cases hk : claveYEstado item with
    | none => exact hacc c l' (by rwa [hk] at hl')
    | some p =>
      obtain ⟨ck, ve⟩ := p
      rw [hk, insertMulti_lookup] at hl'
      by_cases hc : c = ck
      · rw [if_pos hc] at hl'
        cases ha : acc.lookup ck with
        | none =>
          simp only [ha] at hl'
          obtain rfl : [ve] = l' := Option.some.inj hl'
          exact ⟨by simp, List.nodup_singleton ve⟩
        | some l0 =>
          obtain ⟨h1, h2⟩ := hacc ck l0 ha
          simp only [ha] at hl'
          by_cases hv : ve ∈ l0
          · rw [if_pos hv] at hl'
            obtain rfl : l0 = l' := Option.some.inj hl'
            exact ⟨h1, h2⟩
          · rw [if_neg hv] at hl'
            obtain rfl : l0 ++ [ve] = l' := Option.some.inj hl'
            exact ⟨by simp, List.Nodup.append h2 (List.nodup_singleton ve) (by simpa using hv)⟩
      · rw [if_neg hc] at hl'
        exact hacc c l' hl'

/-- Membership in the group map after the legal-status fold: a status is
stored for a column exactly when it was already stored or some processed
record contributes it. -/
theorem foldl_addLegal_mem (datos : List LegalRecord) :
    ∀ (acc : List (String × List String)) (col e : String),
    e ∈ lookupList (datos.foldl addLegalItem acc) col ↔
      e ∈ lookupList acc col ∨ contributes datos col e := by
  induction datos with
  | nil =>
    intro acc col e
    simp [contributes_nil]
  | cons item rest ih =>
    intro acc col e
    rw [List.foldl_cons, ih (addLegalItem acc item) col e, contributes_cons]
    have hstep : e ∈ lookupList (addLegalItem acc item) col ↔
        e ∈ lookupList acc col ∨ claveYEstado item = some (col, e) := by
      unfold addLegalItem
      cases hk : claveYEstado item with
      | none => simp
      | some p =>
        obtain ⟨ck, ve⟩ := p
        unfold lookupList
        rw [insertMulti_lookup]
        by_cases hc : col = ck
        · subst hc
          rw [if_pos rfl]
          cases ha : acc.lookup col with
          | none =>
            simp only [Option.getD_some, Option.getD_none, List.not_mem_nil, false_or,
              List.mem_singleton, Option.some.injEq, Prod.mk.injEq, eq_self_iff_true, true_and]
            exact eq_comm
          | some l0 =>
            by_cases hv : ve ∈ l0
            · simp only [if_pos hv, Option.getD_some, Option.some.injEq, Prod.mk.injEq,
                eq_self_iff_true, true_and]
              constructor
              · exact fun h => Or.inl h
              · rintro (h | h)
                · exact h
                · exact h ▸ hv
            · simp only [if_neg hv, Option.getD_some, List.mem_append, List.mem_singleton,
                Option.some.injEq, Prod.mk.injEq, eq_self_iff_true, true_and]
              constructor
              · rintro (h | h)
                · exact Or.inl h
                · exact Or.inr h.symm
              · rintro (h | h)
                · exact Or.inl h
                · exact Or.inr h.symm
        · rw [if_neg hc]
          constructor
          · exact fun h => Or.inl h
          · rintro (h | h)
            · exact h
            · have hck : ck = col := congrArg Prod.fst (Option.some.inj h)
              exact absurd hck.symm hc
    rw [hstep]
    tauto

/-- The keys of the group map stay duplicate-free along the fold. -/
theorem foldl_addLegal_keys_nodup (datos : List LegalRecord) :
    ∀ acc : List (String × List String),
    (acc.map Prod.fst).Nodup → (((datos.foldl addLegalItem acc)).map Prod.fst).Nodup := by
  induction datos with
  | nil => exact fun acc h => h
  | cons item rest ih =>
    intro acc hacc
    rw [List.foldl_cons]
    refine ih (addLegalItem acc item) ?_
    unfold addLegalItem
    cases claveYEstado item with
    | none => exact hacc
    | some p => exact insertMulti_keys_nodup acc p.1 p.2 hacc

/-- Claim C5, counterexample.  The claim (quantified over both
implementations its sources cite) requires every legal-status cell to be the
sorted comma-join of the distinct in-force statuses of its column.  The
Streamlit implementation appends statuses in response order: with the
in-force national statuses "Vulnerable" then "En peligro" it produces the
cell "Vulnerable, En peligro", while the sorted join of those statuses is
"En peligro, Vulnerable". -/
theorem C5_counterexample :
    (obtenerDatosProteccionStreamlit (.ok
        [⟨some 1, some "Nacional", "Vulnerable", none, none⟩,
         ⟨some 1, some "Nacional", "En peligro", none, none⟩]) "Especie X").lookup
      "Catálogo Nacional" = some "Vulnerable, En peligro" ∧
    String.intercalate ", " (List.insertionSort strLe ["Vulnerable", "En peligro"])
      = "En peligro, Vulnerable" ∧
    ("Vulnerable, En peligro" : String) ≠ "En peligro, Vulnerable" :=
  ⟨rfl, rfl, by decide⟩

/-- Claim C5 (amended): in the Dash app implementation
(`obtener_datos_proteccion` of src/app.py) every legal-status cell is the
comma-join of a sorted, duplicate-free list whose members are exactly the
in-force statuses grouped under that column key (`strLe` is Python's
code-point string order); the Streamlit variant instead joins in response
order with a substring-based duplicate test. -/
theorem C5_legal_cells_sorted (datos : List LegalRecord) (base col : String)
    (hcol : ¬ col = "Especie") (cell : String)
    (hcell : (obtenerDatosProteccion (.ok datos) base).lookup col = some cell) :
    ∃ l, cell = String.intercalate ", " l ∧ l.Sorted strLe ∧ l.Nodup ∧
      ∀ e, (e ∈ l ↔ ∃ item ∈ datos, claveYEstado item = some (col, e)) := by
  have hnd : (((datos.foldl addLegalItem []).map Prod.fst)).Nodup :=
    foldl_addLegal_keys_nodup datos [] (by simp)
  have hkey := foldl_dictInsert_lookup (datos.foldl addLegalItem []) [("Especie", base)] col hnd
  rw [show obtenerDatosProteccion (.ok datos) base =
      (datos.foldl addLegalItem []).foldl
        (fun prot p => dictInsert prot p.1 (joinCell p.2)) [("Especie", base)] from rfl,
    hkey] at hcell
  cases hm : (datos.foldl addLegalItem []).lookup col with
  | none =>
    simp only [hm] at hcell
    rw [lookup_cons_ne base [] hcol] at hcell
    exact Option.noConfusion hcell
  | some l =>
    simp only [hm] at hcell
    obtain rfl : joinCell l = cell := Option.some.inj hcell
    obtain ⟨hne, hnd'⟩ :=
      foldl_addLegal_wf datos [] (fun c l' h => Option.noConfusion h) col l hm
    have hmem : ∀ e, e ∈ l ↔ contributes datos col e := by
      intro e
      have hml := foldl_addLegal_mem datos [] col e
      rw [show lookupList (datos.foldl addLegalItem []) col = l from by
        unfold lookupList
        rw [hm]
        rfl] at hml
      simpa [lookupList, List.lookup] using hml
    refine ⟨List.insertionSort strLe l, ?_, ?_, ?_, ?_⟩
    · unfold joinCell
      rw [if_neg hne]
    · exact List.sorted_insertionSort strLe l
    · exact ((List.perm_insertionSort strLe l).nodup_iff).mpr hnd'
    · intro e
      rw [(List.perm_insertionSort strLe l).mem_iff]
      exact hmem e

/-- Claim C5, witness: the amended theorem applied to a response with one
regional and three national records (one a duplicate, one not in force)
yielding the sorted, deduplicated national cell "En peligro, Vulnerable". -/
theorem C5_witness :
    ∃ l, "En peligro, Vulnerable" = String.intercalate ", " l ∧ l.Sorted strLe ∧ l.Nodup ∧
      ∀ e, (e ∈ l ↔ ∃ item ∈
        [(⟨some 1, some "Nacional", some "Vulnerable", none, none⟩ : LegalRecord),
         ⟨some 1, some "Nacional", some "En peligro", none, none⟩,
         ⟨some 1, some "Nacional", some "Vulnerable", none, none⟩,
         ⟨some 0, some "Nacional", some "Extinto", none, none⟩],
        claveYEstado item = some ("Catálogo Nacional", e)) :=
  C5_legal_cells_sorted
    [⟨some 1, some "Nacional", some "Vulnerable", none, none⟩,
     ⟨some 1, some "Nacional", some "En peligro", none, none⟩,
     ⟨some 1, some "Nacional", some "Vulnerable", none, none⟩,
     ⟨some 0, some "Nacional", some "Extinto", none, none⟩]
    "X" "Catálogo Nacional" (by decide) "En peligro, Vulnerable" rfl

/-- Claim C6, counterexample.  The claim says `id_by_exact_name` falls back
to the first record's taxon id when no record carries an accepted/valid
flag, and returns none only on an empty list or transport failure.  The
Streamlit implementation returns none for the non-empty response
`[{nametype: "Sinónimo", taxonid: 7}]` (no fallback and exact, accent- and
case-sensitive comparison with "Aceptado/válido"), while the Dash app
implementation returns 7 for the same response. -/
theorem C6_counterexample :
    obtenerIdPorNombreStreamlit (.ok [⟨some "Sinónimo", some 7⟩]) = none ∧
    ([(⟨some "Sinónimo", some 7⟩ : RegistroNombre)] ≠ []) ∧
    obtenerIdPorNombre (.ok [⟨some "Sinónimo", some 7⟩]) = some 7 :=
  ⟨rfl, by simp, rfl⟩

/-- Claim C6 (amended): for the Dash app implementation
(`obtener_id_por_nombre` of src/app.py) the claim holds — on a non-empty
candidate list whose records carry taxon ids, the result is the first
record whose stripped, lowercased name-type contains "aceptado" or
"valido"/"válido", else the first record's id, and the result is present;
a transport failure yields none.  The Streamlit variant instead compares
for exact equality with "Aceptado/válido" and has no first-record
fallback. -/
theorem C6_exact_lookup_accepts (datos : List RegistroNombre)
    (h1 : datos ≠ []) (h2 : ∀ r ∈ datos, r.taxonid.isSome) :
    (obtenerIdPorNombre (.ok datos)).isSome = true ∧
    (∀ r, datos.find? acceptedFlag = some r → obtenerIdPorNombre (.ok datos) = r.taxonid) ∧
    (datos.find? acceptedFlag = none →
      obtenerIdPorNombre (.ok datos) = (datos.headD ⟨none, none⟩).taxonid) ∧
    obtenerIdPorNombre (.error ()) = none := by
  have he : obtenerIdPorNombre (.ok datos) =
      if datos = [] then none
      else match datos.find? acceptedFlag with
        | some r => r.taxonid
        | none => (datos.headD ⟨none, none⟩).taxonid := rfl
  rw [he, if_neg h1]
  refine ⟨?_, ?_, ?_, rfl⟩
  · cases hf : datos.find? acceptedFlag with
    | some r =>
      simp only [hf]
      exact h2 r (List.mem_of_find?_eq_some hf)
    | none =>
      simp only [hf]
      cases datos with
      | nil => exact absurd rfl h1
      | cons d rest => exact h2 d (List.mem_cons_self d rest)
  · intro r hf
    simp only [hf]
  · intro hf
    simp only [hf]

/-- Claim C6, witness: the amended theorem applied to a response whose
second record is flagged "ACEPTADO/VÁLIDO " (upper case, trailing space) —
the flag is recognized after stripping and lowercasing and that record's
id is returned. -/
theorem C6_witness :
    (obtenerIdPorNombre (.ok
        [⟨some "Sinónimo", some 7⟩, ⟨some "ACEPTADO/VÁLIDO ", some 9⟩])).isSome = true ∧
    (∀ r, [(⟨some "Sinónimo", some 7⟩ : RegistroNombre),
        ⟨some "ACEPTADO/VÁLIDO ", some 9⟩].find? acceptedFlag = some r →
      obtenerIdPorNombre (.ok [⟨some "Sinónimo", some 7⟩, ⟨some "ACEPTADO/VÁLIDO ", some 9⟩])
        = r.taxonid) ∧
    ([(⟨some "Sinónimo", some 7⟩ : RegistroNombre),
        ⟨some "ACEPTADO/VÁLIDO ", some 9⟩].find? acceptedFlag = none →
      obtenerIdPorNombre (.ok [⟨some "Sinónimo", some 7⟩, ⟨some "ACEPTADO/VÁLIDO ", some 9⟩])
        = ([(⟨some "Sinónimo", some 7⟩ : RegistroNombre),
            ⟨some "ACEPTADO/VÁLIDO ", some 9⟩].headD ⟨none, none⟩).taxonid) ∧
    obtenerIdPorNombre (.error ()) = none :=
  C6_exact_lookup_accepts [⟨some "Sinónimo", some 7⟩, ⟨some "ACEPTADO/VÁLIDO ", some 9⟩]
    (by simp) (by decide)

/-! ## Row-key lemmas for the resolver -/

theorem mem_keys_dictInsert (r : Row) (k v k' : String)
    (h : k' ∈ (dictInsert r k v).map Prod.fst) : k' ∈ r.map Prod.fst ∨ k' = k := by
  rw [dictInsert_keys] at h
  by_cases hs : (r.lookup k).isSome
  · rw [if_pos hs] at h
    exact Or.inl h
  · rw [if_neg hs] at h
    rcases List.mem_append.mp h with h | h
    · exact Or.inl h
    · exact Or.inr (List.mem_singleton.mp h)

theorem mem_keys_foldl_dictInsert (m : List (String × List String)) :
    ∀ (prot : Row) (k : String),
    k ∈ ((m.foldl (fun prot p => dictInsert prot p.1 (joinCell p.2)) prot).map Prod.fst) →
    k ∈ prot.map Prod.fst ∨ k ∈ m.map Prod.fst := by
  induction m with
  | nil => exact fun prot k h => Or.inl h
  | cons p rest ih =>
    intro prot k h
    rw [List.foldl_cons] at h
    rcases ih (dictInsert prot p.1 (joinCell p.2)) k h with h | h
    · rcases mem_keys_dictInsert prot p.1 (joinCell p.2) k h with h | h
      · exact Or.inl h
      · exact Or.inr (by simp [h])
    · exact Or.inr (List.mem_cons_of_mem _ (by simpa using h))

theorem mem_keys_foldl_addLegal (datos : List LegalRecord) :
    ∀ (acc : List (String × List String)) (k : String),
    k ∈ ((datos.foldl addLegalItem acc).map Prod.fst) →
    k ∈ acc.map Prod.fst ∨ ∃ item ∈ datos, ∃ e, claveYEstado item = some (k, e) := by
  induction datos with
  | nil => exact fun acc k h => Or.inl h
  | cons item rest ih =>
    intro acc k h
    rw [List.foldl_cons] at h
    rcases ih (addLegalItem acc item) k h with h | h
    · unfold addLegalItem at h
      cases hk : claveYEstado item with
      | none =>
        rw [hk] at h
        exact Or.inl h
      | some p =>
        rw [hk, insertMulti_keys] at h
        by_cases hm : p.1 ∈ acc.map Prod.fst
        · rw [if_pos hm] at h
          exact Or.inl h
        · rw [if_neg hm] at h
          rcases List.mem_append.mp h with h | h
          · exact Or.inl h
          · refine Or.inr ⟨item, List.mem_cons_self _ _, p.2, ?_⟩
            rw [hk, List.mem_singleton.mp h]
    · obtain ⟨it, hit, e, he⟩ := h
      exact Or.inr ⟨it, List.mem_cons_of_mem _ hit, e, he⟩

theorem mem_keys_datosProteccion (respuesta : Except Unit (List LegalRecord))
    (base k : String)
    (h : k ∈ (obtenerDatosProteccion respuesta base).map Prod.fst) :
    k = "Especie" ∨ k = "Error" ∨
      ∃ legales, respuesta = .ok legales ∧ ∃ item ∈ legales, ∃ e,
        claveYEstado item = some (k, e) := by
  cases respuesta with
  | error u =>
    simp only [obtenerDatosProteccion, List.map_cons, List.map_nil] at h
    rcases List.mem_cons.mp h with h | h
    · exact Or.inl h
    · exact Or.inr (Or.inl (by simpa using h))
  | ok legales =>
    rcases mem_keys_foldl_dictInsert (legales.foldl addLegalItem []) [("Especie", base)] k h
      with h | h
    · exact Or.inl (by simpa using h)
    · rcases mem_keys_foldl_addLegal legales [] k h with h | ⟨item, hit, e, he⟩
      · simp at h
      · exact Or.inr (Or.inr ⟨legales, rfl, item, hit, e, he⟩)

/-- Claim C2, counterexample.  The claim asserts that a conservation-status
operation runs during attribute-gathering and contributes "Red List -
{scope}" columns to the row of every resolved taxon.  For a concrete fully
resolved taxon the row is exactly the identity, legal-status, group,
common-name and note columns — no Red-List column exists. -/
theorem C2_counterexample :
    procNombre "Lynx pardinus" (.ok [⟨some "Aceptado/válido", some 10⟩]) []
        (.ok [⟨some 1, some "Nacional", some "En peligro", none, none⟩])
        [some "Mamíferos"] [⟨some 1, some true, some "Lince ibérico"⟩]
      = [("Especie", "Lynx pardinus"), ("Catálogo Nacional", "En peligro"),
         ("Grupo taxonómico", "Mamíferos"), ("Nombre común", "Lince ibérico"),
         ("Notas", "-")] ∧
    ∀ k ∈ ([("Especie", "Lynx pardinus"), ("Catálogo Nacional", "En peligro"),
         ("Grupo taxonómico", "Mamíferos"), ("Nombre común", "Lince ibérico"),
         ("Notas", "-")] : Row).map Prod.fst,
      ¬ containsSub "Lista Roja" k = true ∧ ¬ containsSub "Red List" k = true :=
  ⟨rfl, by decide⟩

/-- Claim C2 (amended): the resolver's attribute-gathering invokes only the
legal-status, taxonomic-group and common-name operations; there is no
conservation-status operation in the code, and every column of the produced
row is the species identity, the error marker, the taxonomic group, the
common name, the note column, or a column derived from an in-force
legal-status record — never a Red-List column. -/
theorem C2_no_conservation_columns (nombre : String)
    (respExact : Except Unit (List RegistroNombre)) (listaRef : List (String × Int))
    (respLegal : Except Unit (List LegalRecord)) (filasTax : List (Option String))
    (filasComun : List ComunRow) (k : String)
    (hk : k ∈ (procNombre nombre respExact listaRef respLegal filasTax
      filasComun).map Prod.fst) :
    k ∈ ["Especie", "Grupo taxonómico", "Nombre común", "Error", "Notas"] ∨
      ∃ legales, respLegal = .ok legales ∧ ∃ item ∈ legales, ∃ e,
        claveYEstado item = some (k, e) := by
  have hshape : procNombre nombre respExact listaRef respLegal filasTax filasComun
      = filaNoEncontrada nombre ∨
      ∃ base nota, procNombre nombre respExact listaRef respLegal filasTax filasComun
        = filaResuelta respLegal filasTax filasComun base nota := by
    simp only [procNombre]
    by_cases h : ¬ truthyId (resolverFuzzy (pyStrip nombre)
        (obtenerIdPorNombre respExact) listaRef).1 = true
    · rw [if_pos h]
      exact Or.inl rfl
    · rw [if_neg h]
      exact Or.inr ⟨_, _, rfl⟩
  rcases hshape with hs | ⟨base, nota, hs⟩
  · rw [hs] at hk
    exact Or.inl (by simpa [filaNoEncontrada] using hk)
  · rw [hs] at hk
    unfold filaResuelta at hk
    rcases mem_keys_dictInsert _ "Notas" _ k hk with hk | hk
    rotate_left
    · exact Or.inl (by simp [hk])
    rcases mem_keys_dictInsert _ "Nombre común" _ k hk with hk | hk
    rotate_left
    · exact Or.inl (by simp [hk])
    rcases mem_keys_dictInsert _ "Grupo taxonómico" _ k hk with hk | hk
    rotate_left
    · exact Or.inl (by simp [hk])
    rcases mem_keys_datosProteccion respLegal _ k hk with h | h | h
    · exact Or.inl (by simp [h])
    · exact Or.inl (by simp [h])
    · exact Or.inr h

/-- Claim C2, witness: the amended theorem applied to the key "Catálogo
Nacional" of the concrete resolved row — it is a column derived from an
in-force legal record, not a conservation column. -/
theorem C2_witness :
    "Catálogo Nacional" ∈ (["Especie", "Grupo taxonómico", "Nombre común", "Error",
        "Notas"] : List String) ∨
      ∃ legales, (Except.ok [(⟨some 1, some "Nacional", some "En peligro", none,
          none⟩ : LegalRecord)] : Except Unit (List LegalRecord)) = .ok legales ∧
        ∃ item ∈ legales, ∃ e, claveYEstado item = some ("Catálogo Nacional", e) :=
  C2_no_conservation_columns "Lynx pardinus" (.ok [⟨some "Aceptado/válido", some 10⟩]) []
    (.ok [⟨some 1, some "Nacional", some "En peligro", none, none⟩])
    [some "Mamíferos"] [⟨some 1, some true, some "Lince ibérico"⟩]
    "Catálogo Nacional" (by decide)

/-! ## Resolver reduction lemmas -/

theorem resolverFuzzy_exact (nombreLimpio : String) (taxonId : Option Int)
    (listaRef : List (String × Int)) (h : truthyId taxonId = true) :
    resolverFuzzy nombreLimpio taxonId listaRef = (taxonId, "-", nombreLimpio) := by
  unfold resolverFuzzy
  rw [if_pos h]

theorem procNombre_resolved (nombre : String) (respExact : Except Unit (List RegistroNombre))
    (listaRef : List (String × Int)) (respLegal : Except Unit (List LegalRecord))
    (filasTax : List (Option String)) (filasComun : List ComunRow)
    (h : truthyId (obtenerIdPorNombre respExact) = true) :
    procNombre nombre respExact listaRef respLegal filasTax filasComun =
      filaResuelta respLegal filasTax filasComun (pyStrip nombre) "-" := by
  simp only [procNombre, resolverFuzzy_exact _ _ _ h]
  rw [if_neg (by simp [h])]

theorem filaResuelta_error (filasTax : List (Option String)) (filasComun : List ComunRow)
    (base nota : String) :
    filaResuelta (.error ()) filasTax filasComun base nota =
      [("Especie", base), ("Error", "Fallo al obtener datos legales"),
       ("Grupo taxonómico", (obtenerGrupoTaxonomicoPorId filasTax).getD "-"),
       ("Nombre común", (obtenerNombreComunPorId filasComun).getD "-"),
       ("Notas", nota)] := rfl

/-! ## Table lemmas -/

theorem zip_map_lookup (l : List String) (f : String → String) (c : String) (hc : c ∈ l) :
    (l.zip (l.map f)).lookup c = some (f c) := by
  induction l with
  | nil => simp at hc
  | cons a rest ih =>
    rw [List.map_cons, List.zip_cons_cons]
    by_cases hca : c = a
    · subst hca
      exact lookup_cons_eq c (f c) _
    · rw [lookup_cons_ne (f a) _ hca]
      exact ih ((List.mem_cons.mp hc).resolve_left hca)

theorem mem_addKeys_left (acc : List String) (r : Row) (k : String) (h : k ∈ acc) :
    k ∈ addKeys acc r := by
  unfold addKeys
  induction r generalizing acc with
  | nil => exact h
  | cons p rest ih =>
    rw [List.foldl_cons]
    by_cases hc : acc.contains p.1
    · rw [if_pos hc]
      exact ih acc h
    · rw [if_neg hc]
      exact ih (acc ++ [p.1]) (List.mem_append_left _ h)

theorem mem_addKeys_key (acc : List String) (r : Row) (k : String) (h : k ∈ r.map Prod.fst) :
    k ∈ addKeys acc r := by
  unfold addKeys
  induction r generalizing acc with
  | nil => simp at h
  | cons p rest ih =>
    rw [List.map_cons] at h
    rw [List.foldl_cons]
    rcases List.mem_cons.mp h with h | h
    · have hk : k ∈ (if acc.contains p.1 then acc else acc ++ [p.1]) := by
        by_cases hc : acc.contains p.1
        · rw [if_pos hc]
          exact h ▸ List.mem_of_elem_eq_true hc
        · rw [if_neg hc]
          exact h ▸ List.mem_append_right _ (List.mem_singleton_self _)
      have hmono := mem_addKeys_left (if acc.contains p.1 then acc else acc ++ [p.1]) rest k hk
      unfold addKeys at hmono
      by_cases hc : acc.contains p.1
      · rwa [if_pos hc] at hmono ⊢
      · rwa [if_neg hc] at hmono ⊢
    · by_cases hc : acc.contains p.1
      · rw [if_pos hc]
        exact ih acc h
      · rw [if_neg hc]
        exact ih (acc ++ [p.1]) h

theorem mem_addKeys_cases (acc : List String) (r : Row) (k : String)
    (h : k ∈ addKeys acc r) : k ∈ acc ∨ k ∈ r.map Prod.fst := by
  unfold addKeys at h
  induction r generalizing acc with
  | nil => exact Or.inl h
  | cons p rest ih =>
    rw [List.foldl_cons] at h
    by_cases hc : acc.contains p.1
    · rw [if_pos hc] at h
      rcases ih acc h with h | h
      · exact Or.inl h
      · exact Or.inr (List.mem_cons_of_mem _ (by simpa using h))
    · rw [if_neg hc] at h
      rcases ih (acc ++ [p.1]) h with h | h
      · rcases List.mem_append.mp h with h | h
        · exact Or.inl h
        · exact Or.inr (by simp [List.mem_singleton.mp h])
      · exact Or.inr (List.mem_cons_of_mem _ (by simpa using h))

theorem addKeys_nodup (acc : List String) (r : Row) (h : acc.Nodup) :
    (addKeys acc r).Nodup := by
  unfold addKeys
  induction r generalizing acc with
  | nil => exact h
  | cons p rest ih =>
    rw [List.foldl_cons]
    by_cases hc : acc.contains p.1
    · rw [if_pos hc]
      exact ih acc h
    · rw [if_neg hc]
      refine ih (acc ++ [p.1]) ?_
      refine List.Nodup.append h (List.nodup_singleton p.1) ?_
      intro x hx hx1
      rw [List.mem_singleton.mp hx1] at hx
      exact hc (List.elem_eq_true_of_mem hx)

theorem foldl_addKeys_mono (rows : List Row) :
    ∀ (acc : List String) (k : String), k ∈ acc → k ∈ rows.foldl addKeys acc := by
  induction rows with
  | nil => exact fun acc k h => h
  | cons r0 rest ih =>
    intro acc k h
    rw [List.foldl_cons]
    exact ih _ k (mem_addKeys_left acc r0 k h)

theorem mem_unionCols_of_key (rows : List Row) (r : Row) (k : String)
    (hr : r ∈ rows) (hk : k ∈ r.map Prod.fst) : k ∈ unionCols rows := by
  unfold unionCols
  suffices haux : ∀ (rs : List Row) (acc : List String), r ∈ rs → k ∈ rs.foldl addKeys acc from
    haux rows [] hr
  intro rs
  induction rs with
  | nil =>
    intro acc h
    simp at h
  | cons r0 rest ih =>
    intro acc h
    rw [List.foldl_cons]
    rcases List.mem_cons.mp h with rfl | h
    · exact foldl_addKeys_mono rest _ k (mem_addKeys_key acc r k hk)
    · exact ih _ h

theorem mem_unionCols_cases (rows : List Row) (k : String) (h : k ∈ unionCols rows) :
    ∃ r ∈ rows, k ∈ r.map Prod.fst := by
  unfold unionCols at h
  suffices haux : ∀ (acc : List String), k ∈ rows.foldl addKeys acc →
      k ∈ acc ∨ ∃ r ∈ rows, k ∈ r.map Prod.fst by
    rcases haux [] h with h0 | h0
    · simp at h0
    · exact h0
  clear h
  induction rows with
  | nil =>
    intro acc h
    exact Or.inl h
  | cons r0 rest ih =>
    intro acc h
    rw [List.foldl_cons] at h
    rcases ih (addKeys acc r0) h with h | ⟨r, hr, hk⟩
    · rcases mem_addKeys_cases acc r0 k h with h | h
      · exact Or.inl h
      · exact Or.inr ⟨r0, List.mem_cons_self _ _, h⟩
    · exact Or.inr ⟨r, List.mem_cons_of_mem _ hr, hk⟩

theorem unionCols_nodup (rows : List Row) : (unionCols rows).Nodup := by
  unfold unionCols
  suffices haux : ∀ acc : List String, acc.Nodup → (rows.foldl addKeys acc).Nodup from
    haux [] List.nodup_nil
  induction rows with
  | nil => exact fun acc h => h
  | cons r0 rest ih =>
    intro acc h
    rw [List.foldl_cons]
    exact ih (addKeys acc r0) (addKeys_nodup acc r0 h)

theorem perm_datosParaTabla (res : List Row) : List.Perm (datosParaTabla res) res := by
  unfold datosParaTabla
  have h := List.filter_append_perm (fun fila => !(hasError fila)) res
  simpa only [Bool.not_not] using h

theorem datosParaTabla_ne_nil (res : List Row) (h : res ≠ []) : datosParaTabla res ≠ [] := by
  intro h0
  apply h
  have hl := (perm_datosParaTabla res).length_eq
  rw [h0] at hl
  exact List.eq_nil_of_length_eq_zero hl.symm

theorem generarTabla_eq (res : List Row) (h : res ≠ []) :
    generarTablaCompleta res = ⟨tablaCols res,
      (datosParaTabla res).map
        (fun r => (tablaCols res).map (fun c => (r.lookup c).getD "-"))⟩ := by
  unfold generarTablaCompleta
  rw [if_neg (datosParaTabla_ne_nil res h)]

theorem mem_keys_of_lookup_isSome {β : Type} (r : List (String × β)) (k : String)
    (h : (r.lookup k).isSome) : k ∈ r.map Prod.fst := by
  by_cases hm : k ∈ r.map Prod.fst
  · exact hm
  · rw [lookup_eq_none_of_not_mem_keys r k hm] at h
    simp at h

theorem mem_tablaCols_of_key (res : List Row) (r : Row) (k : String) (hr : r ∈ res)
    (hk : k ∈ r.map Prod.fst) : k ∈ tablaCols res := by
  unfold tablaCols
  exact List.mem_append_left _
    (mem_unionCols_of_key _ r k ((perm_datosParaTabla res).mem_iff.mpr hr) hk)

theorem obligatorias_mem_tablaCols (res : List Row) (c : String) (hc : c ∈ colsObligatorias) :
    c ∈ tablaCols res := by
  unfold tablaCols
  by_cases h : c ∈ unionCols (datosParaTabla res)
  · exact List.mem_append_left _ h
  · refine List.mem_append_right _ ?_
    rw [List.mem_filter]
    exact ⟨hc, by simp [h]⟩

theorem tablaCols_nodup (res : List Row) : (tablaCols res).Nodup := by
  unfold tablaCols
  refine List.Nodup.append (unionCols_nodup _) (List.Nodup.filter _ (by decide)) ?_
  intro x hx hxf
  rw [List.mem_filter] at hxf
  exact absurd hx (by simpa using hxf.2)

/-- Every source row appears in the final frame as a row whose cell at every
column is the source value or "-"; its index is the row's position. -/
theorem generarTabla_row_spec (res : List Row) (h : res ≠ []) (r : Row) (hr : r ∈ res) :
    ∃ i, ∀ c ∈ (generarTablaCompleta res).cols,
      (generarTablaCompleta res).cell i c = some ((r.lookup c).getD "-") := by
  rw [generarTabla_eq res h]
  have hrd : r ∈ datosParaTabla res := (perm_datosParaTabla res).mem_iff.mpr hr
  obtain ⟨⟨i, hilt⟩, hi⟩ := List.mem_iff_get.mp hrd
  refine ⟨i, fun c hc => ?_⟩
  unfold DataFrame.cell
  have hcell : ((datosParaTabla res).map
      (fun r => (tablaCols res).map (fun c => (r.lookup c).getD "-")))[i]?
      = some ((tablaCols res).map (fun c => (r.lookup c).getD "-")) := by
    rw [List.getElem?_map]
    rw [List.getElem?_eq_getElem hilt]
    simp [← hi, List.get_eq_getElem]
  simp only [hcell]
  exact zip_map_lookup (tablaCols res) _ c hc

/-- Claim C7: for every batch, the final table has a column for every key
appearing in at least one row, and every row of the table has a value in
every column — the source value where the row produced that column and the
sentinel "-" where it did not. -/
theorem C7_column_union (resultados : List Row) (h : resultados ≠ []) :
    (∀ r ∈ resultados, ∀ k : String, (r.lookup k).isSome →
      k ∈ (generarTablaCompleta resultados).cols) ∧
    (∀ r ∈ resultados, ∃ i, ∀ c ∈ (generarTablaCompleta resultados).cols,
      (generarTablaCompleta resultados).cell i c = some ((r.lookup c).getD "-")) := by
  constructor
  · intro r hr k hk
    rw [generarTabla_eq resultados h]
    exact mem_tablaCols_of_key resultados r k hr (mem_keys_of_lookup_isSome r k hk)
  · intro r hr
    exact generarTabla_row_spec resultados h r hr

/-- Claim C7, witness: the theorem applied to a two-row batch with
heterogeneous column sets. -/
theorem C7_witness :
    (∀ r ∈ [[("Especie", "A"), ("Cat", "VU")], [("Especie", "B"), ("Otro", "X")]],
      ∀ k : String, (r.lookup k).isSome →
        k ∈ (generarTablaCompleta
          [[("Especie", "A"), ("Cat", "VU")], [("Especie", "B"), ("Otro", "X")]]).cols) ∧
    (∀ r ∈ [[("Especie", "A"), ("Cat", "VU")], [("Especie", "B"), ("Otro", "X")]],
      ∃ i, ∀ c ∈ (generarTablaCompleta
          [[("Especie", "A"), ("Cat", "VU")], [("Especie", "B"), ("Otro", "X")]]).cols,
        (generarTablaCompleta
          [[("Especie", "A"), ("Cat", "VU")], [("Especie", "B"), ("Otro", "X")]]).cell i c
          = some ((r.lookup c).getD "-")) :=
  C7_column_union [[("Especie", "A"), ("Cat", "VU")], [("Especie", "B"), ("Otro", "X")]]
    (by simp)

/-- Claim C10: every non-empty table returned by the batch orchestrator
contains the five obligatory columns, and a column no row produced holds the
sentinel "-" in every row. -/
theorem C10_obligatory_columns (resultados : List Row) (h : resultados ≠ []) :
    (∀ c ∈ colsObligatorias, c ∈ (generarTablaCompleta resultados).cols) ∧
    (∀ c ∈ colsObligatorias, (∀ r ∈ resultados, r.lookup c = none) →
      ∀ row ∈ (generarTablaCompleta resultados).cells,
        ((generarTablaCompleta resultados).cols.zip row).lookup c = some "-") := by
  constructor
  · intro c hc
    rw [generarTabla_eq resultados h]
    exact obligatorias_mem_tablaCols resultados c hc
  · intro c hc hnone row hrow
    have hcmem : c ∈ (generarTablaCompleta resultados).cols := by
      rw [generarTabla_eq resultados h]
      exact obligatorias_mem_tablaCols resultados c hc
    rw [generarTabla_eq resultados h] at hrow hcmem ⊢
    simp only at hrow
    obtain ⟨r, hrd, hre⟩ := List.mem_map.mp hrow
    subst hre
    rw [zip_map_lookup (tablaCols resultados) _ c hcmem]
    rw [hnone r ((perm_datosParaTabla resultados).mem_iff.mp hrd)]
    rfl

/-- Claim C10, witness: a batch in which no row produced "Error", "Notas",
"Grupo taxonómico" or "Nombre común" still yields all five obligatory
columns, with "-" cells in the unproduced ones. -/
theorem C10_witness :
    (∀ c ∈ colsObligatorias, c ∈ (generarTablaCompleta [[("Especie", "A")]]).cols) ∧
    (∀ c ∈ colsObligatorias, (∀ r ∈ [[("Especie", "A")]], r.lookup c = none) →
      ∀ row ∈ (generarTablaCompleta [[("Especie", "A")]]).cells,
        ((generarTablaCompleta [[("Especie", "A")]]).cols.zip row).lookup c = some "-") :=
  C10_obligatory_columns [[("Especie", "A")]] (by simp)

/-- Claim C8: a transport failure of the legal-status fetch for a resolved
taxon still yields a row: the species identity, the legal-failure error
marker, the taxonomic group and common name from their own fetches, and the
note column.  At the batch level the table keeps one row per input and the
number of rows whose "Error" cell differs from "-" equals the number of
rows carrying an error marker, so the other rows stay fully populated. -/
theorem C8_legal_failure_isolated :
    (∀ (nombre : String) (respExact : Except Unit (List RegistroNombre))
        (listaRef : List (String × Int)) (filasTax : List (Option String))
        (filasComun : List ComunRow),
      truthyId (obtenerIdPorNombre respExact) = true →
      procNombre nombre respExact listaRef (.error ()) filasTax filasComun =
        [("Especie", pyStrip nombre), ("Error", "Fallo al obtener datos legales"),
         ("Grupo taxonómico", (obtenerGrupoTaxonomicoPorId filasTax).getD "-"),
         ("Nombre común", (obtenerNombreComunPorId filasComun).getD "-"),
         ("Notas", "-")]) ∧
    (∀ resultados : List Row, resultados ≠ [] →
      (∀ r ∈ resultados, r.lookup "Error" ≠ some "") →
      (generarTablaCompleta resultados).cells.length = resultados.length ∧
      (generarTablaCompleta resultados).cells.countP
          (fun row => (((generarTablaCompleta resultados).cols.zip row).lookup
            "Error").getD "-" != "-")
        = resultados.countP hasError) := by
  constructor
  · intro nombre respExact listaRef filasTax filasComun h
    rw [procNombre_resolved nombre respExact listaRef (.error ()) filasTax filasComun h,
      filaResuelta_error]
  · intro resultados h h0
    have herr : "Error" ∈ tablaCols resultados :=
      obligatorias_mem_tablaCols resultados "Error" (by simp [colsObligatorias])
    constructor
    · rw [generarTabla_eq resultados h]
      simp only [List.length_map]
      exact (perm_datosParaTabla resultados).length_eq
    · rw [generarTabla_eq resultados h]
      simp only [List.countP_map]
      rw [(perm_datosParaTabla resultados).countP_eq]
      refine List.countP_congr ?_
      intro r hr
      simp only [Function.comp_apply]
      rw [zip_map_lookup (tablaCols resultados) _ "Error" herr]
      cases he : r.lookup "Error" with
      | none => simp [hasError, he]
      | some e =>
        have hne : ¬ e = "" := by
          intro h1
          exact h0 r hr (h1 ▸ he)
        simp only [hasError, he, Option.getD_some, bne_iff_ne, ne_eq, Bool.and_eq_true,
          decide_eq_true_eq]
        exact ⟨fun h1 => ⟨hne, h1⟩, fun h1 => h1.2⟩

/-- Claim C8, witness: a resolved taxon whose legal fetch fails yields the
error-marked but group- and common-name-populated row, and a batch of five
rows with one marked row keeps five rows with exactly one error cell. -/
theorem C8_witness :
    procNombre "Lynx pardinus" (.ok [⟨some "Aceptado/válido", some 10⟩]) [] (.error ())
        [some "Mamíferos"] [⟨some 1, some true, some "Lince ibérico"⟩] =
      [("Especie", "Lynx pardinus"), ("Error", "Fallo al obtener datos legales"),
       ("Grupo taxonómico", "Mamíferos"), ("Nombre común", "Lince ibérico"),
       ("Notas", "-")] ∧
    (generarTablaCompleta
        [[("Especie", "A")], [("Especie", "B")],
         [("Especie", "C"), ("Error", "Fallo al obtener datos legales")],
         [("Especie", "D")], [("Especie", "E")]]).cells.length = 5 ∧
    (generarTablaCompleta
        [[("Especie", "A")], [("Especie", "B")],
         [("Especie", "C"), ("Error", "Fallo al obtener datos legales")],
         [("Especie", "D")], [("Especie", "E")]]).cells.countP
        (fun row => (((generarTablaCompleta
          [[("Especie", "A")], [("Especie", "B")],
           [("Especie", "C"), ("Error", "Fallo al obtener datos legales")],
           [("Especie", "D")], [("Especie", "E")]]).cols.zip row).lookup
            "Error").getD "-" != "-") = 1 := by
  refine ⟨?_, ?_, ?_⟩
  · exact C8_legal_failure_isolated.1 "Lynx pardinus" (.ok [⟨some "Aceptado/válido", some 10⟩])
      [] [some "Mamíferos"] [⟨some 1, some true, some "Lince ibérico"⟩] rfl
  · exact (C8_legal_failure_isolated.2
      [[("Especie", "A")], [("Especie", "B")],
       [("Especie", "C"), ("Error", "Fallo al obtener datos legales")],
       [("Especie", "D")], [("Especie", "E")]] (by simp) (by decide)).1
  · exact (C8_legal_failure_isolated.2
      [[("Especie", "A")], [("Especie", "B")],
       [("Especie", "C"), ("Error", "Fallo al obtener datos legales")],
       [("Especie", "D")], [("Especie", "E")]] (by simp) (by decide)).2

/-! ## Column sequencer lemmas -/

theorem contains_eq_false_iff {l : List String} {x : String} :
    l.contains x = false ↔ x ∉ l := by
  constructor
  · intro h hm
    have ht := List.elem_eq_true_of_mem hm
    rw [show l.contains x = l.elem x from rfl, ht] at h
    exact Bool.noConfusion h
  · intro h
    cases hc : l.contains x
    · rfl
    · exact absurd (List.mem_of_elem_eq_true hc) h

theorem contains_eq_true_iff {l : List String} {x : String} :
    l.contains x = true ↔ x ∈ l :=
  ⟨fun h => List.mem_of_elem_eq_true h, fun h => List.elem_eq_true_of_mem h⟩

theorem mem_legalesDe {cols : List String} {x : String} (h : x ∈ legalesDe cols) :
    x ∈ cols ∧ x ∉ baseExclude ∧ x ≠ "Error" := by
  obtain ⟨h1, h2⟩ := List.mem_filter.mp h
  rw [Bool.and_eq_true] at h2
  refine ⟨h1, ?_, ?_⟩
  · exact contains_eq_false_iff.mp (by simpa using h2.1)
  · exact bne_iff_ne.mp h2.2

theorem legalesDe_nodup {cols : List String} (h : cols.Nodup) : (legalesDe cols).Nodup :=
  h.filter _

theorem mem_sorted_iff {r : String → String → Prop} [DecidableRel r] {l : List String}
    {x : String} : x ∈ List.insertionSort r l ↔ x ∈ l :=
  (List.perm_insertionSort r l).mem_iff

theorem mem_orderedDe {cols : List String} {x : String} (h : x ∈ orderedDe cols) :
    x ∈ cols ∧ x ≠ "protegido" := by
  unfold orderedDe at h
  rw [List.append_assoc, List.append_assoc] at h
  have hfix : x ∈ fixedCols.filter (fun c => cols.contains c) →
      x ∈ cols ∧ x ≠ "protegido" := by
    intro hf
    obtain ⟨h1, h2⟩ := List.mem_filter.mp hf
    refine ⟨contains_eq_true_iff.mp h2, ?_⟩
    have h1d : x = "Especie" ∨ x = "Grupo taxonómico" ∨ x = "Nombre común" ∨ x = "Notas" := by
      simpa [fixedCols] using h1
    rcases h1d with rfl | rfl | rfl | rfl <;> decide
  have hleg : x ∈ legalesDe cols → x ∈ cols ∧ x ≠ "protegido" := by
    intro hl
    obtain ⟨h1, h2, _⟩ := mem_legalesDe hl
    refine ⟨h1, fun he => h2 ?_⟩
    rw [he]
    decide
  rcases List.mem_append.mp h with h | h
  · exact hfix h
  rcases List.mem_append.mp h with h | h
  · exact hleg (List.mem_filter.mp (mem_sorted_iff.mp h)).1
  rcases List.mem_append.mp h with h | h
  · exact hleg (List.mem_filter.mp (mem_sorted_iff.mp h)).1
  · exact hleg (List.mem_filter.mp (mem_sorted_iff.mp h)).1

theorem error_not_mem_orderedDe (cols : List String) : "Error" ∉ orderedDe cols := by
  intro h
  unfold orderedDe at h
  rw [List.append_assoc, List.append_assoc] at h
  have hleg : "Error" ∉ legalesDe cols := fun hl => (mem_legalesDe hl).2.2 rfl
  rcases List.mem_append.mp h with h | h
  · have hf := (List.mem_filter.mp h).1
    revert hf
    decide
  rcases List.mem_append.mp h with h | h
  · exact hleg (List.mem_filter.mp (mem_sorted_iff.mp h)).1
  rcases List.mem_append.mp h with h | h
  · exact hleg (List.mem_filter.mp (mem_sorted_iff.mp h)).1
  · exact hleg (List.mem_filter.mp (mem_sorted_iff.mp h)).1

theorem orderedDe_nodup {cols : List String} (h : cols.Nodup) : (orderedDe cols).Nodup := by
  unfold orderedDe
  rw [List.append_assoc, List.append_assoc]
  have hlegn := legalesDe_nodup h
  have hfixn : (fixedCols.filter (fun c => cols.contains c)).Nodup :=
    List.Nodup.filter _ (by decide)
  have hintn : (List.insertionSort intlLe (internacionalDe cols)).Nodup :=
    ((List.perm_insertionSort intlLe _).nodup_iff).mpr (hlegn.filter _)
  have hnacn : (List.insertionSort nacLe (nacionalDe cols)).Nodup :=
    ((List.perm_insertionSort nacLe _).nodup_iff).mpr (hlegn.filter _)
  have hautn : (List.insertionSort autonLe (autonDe cols)).Nodup :=
    ((List.perm_insertionSort autonLe _).nodup_iff).mpr (hlegn.filter _)
  have hfix_base : ∀ x ∈ fixedCols.filter (fun c => cols.contains c), x ∉ legalesDe cols := by
    intro x hx hxl
    have hxf := (List.mem_filter.mp hx).1
    have hbase := (mem_legalesDe hxl).2.1
    apply hbase
    have hxd : x = "Especie" ∨ x = "Grupo taxonómico" ∨ x = "Nombre común" ∨ x = "Notas" := by
      simpa [fixedCols] using hxf
    rcases hxd with rfl | rfl | rfl | rfl <;> decide
  have hnac_not_auton : ∀ x ∈ nacionalDe cols, x ∉ autonDe cols := by
    intro x hx
    have h2 := (List.mem_filter.mp hx).2
    rw [Bool.and_eq_true] at h2
    exact contains_eq_false_iff.mp (by simpa using h2.1)
  have hint_not_auton : ∀ x ∈ internacionalDe cols, x ∉ autonDe cols := by
    intro x hx
    have h2 := (List.mem_filter.mp hx).2
    rw [Bool.and_eq_true] at h2
    exact contains_eq_false_iff.mp (by simpa using h2.1)
  have hint_not_nac : ∀ x ∈ internacionalDe cols, x ∉ nacionalDe cols := by
    intro x hx
    have h2 := (List.mem_filter.mp hx).2
    rw [Bool.and_eq_true] at h2
    exact contains_eq_false_iff.mp (by simpa using h2.2)
  refine List.Nodup.append hfixn ?_ ?_
  · refine List.Nodup.append hintn ?_ ?_
    · refine List.Nodup.append hnacn hautn ?_
      intro x hx
      exact hnac_not_auton x (mem_sorted_iff.mp hx) ∘ mem_sorted_iff.mp
    · intro x hx hx2
      rcases List.mem_append.mp hx2 with h2 | h2
      · exact hint_not_nac x (mem_sorted_iff.mp hx) (mem_sorted_iff.mp h2)
      · exact hint_not_auton x (mem_sorted_iff.mp hx) (mem_sorted_iff.mp h2)
  · intro x hx hx2
    have hxl : x ∈ legalesDe cols := by
      rcases List.mem_append.mp hx2 with h2 | h2
      · exact (List.mem_filter.mp (mem_sorted_iff.mp h2)).1
      rcases List.mem_append.mp h2 with h2 | h2
      · exact (List.mem_filter.mp (mem_sorted_iff.mp h2)).1
      · exact (List.mem_filter.mp (mem_sorted_iff.mp h2)).1
    exact hfix_base x hx hxl

theorem mem_leftoverDe {cols : List String} {x : String} (h : x ∈ leftoverDe cols) :
    x ∈ cols ∧ x ∉ orderedDe cols ∧ x ≠ "protegido" := by
  obtain ⟨h1, h2⟩ := List.mem_filter.mp h
  rw [Bool.and_eq_true] at h2
  exact ⟨h1, contains_eq_false_iff.mp (by simpa using h2.1), bne_iff_ne.mp h2.2⟩

theorem leftoverDe_mem_of {cols : List String} {x : String} (h1 : x ∈ cols)
    (h2 : x ∉ orderedDe cols) (h3 : x ≠ "protegido") : x ∈ leftoverDe cols := by
  rw [leftoverDe, List.mem_filter]
  refine ⟨h1, ?_⟩
  rw [Bool.and_eq_true]
  exact ⟨by simpa using contains_eq_false_iff.mpr h2, bne_iff_ne.mpr h3⟩

/-- Every member of the pre-filter ordering is a non-"protegido" column, and
conversely. -/
theorem mem_ordenarColumnas {cols : List String} {x : String} :
    x ∈ ordenarColumnas cols ↔ x ∈ cols ∧ x ≠ "protegido" := by
  unfold ordenarColumnas
  constructor
  · intro h
    obtain ⟨h1, h2⟩ := List.mem_filter.mp h
    refine ⟨contains_eq_true_iff.mp h2, ?_⟩
    by_cases he : "Error" ∈ leftoverDe cols
    · rw [if_pos he] at h1
      rcases List.mem_append.mp h1 with h1 | h1
      · rcases List.mem_append.mp h1 with h1 | h1
        · exact (mem_orderedDe h1).2
        · exact (mem_leftoverDe (List.erase_subset _ _ h1)).2.2
      · rw [List.mem_singleton.mp h1]
        decide
    · rw [if_neg he] at h1
      rcases List.mem_append.mp h1 with h1 | h1
      · exact (mem_orderedDe h1).2
      · exact (mem_leftoverDe h1).2.2
  · rintro ⟨h1, h2⟩
    rw [List.mem_filter]
    refine ⟨?_, contains_eq_true_iff.mpr h1⟩
    by_cases ho : x ∈ orderedDe cols
    · by_cases he : "Error" ∈ leftoverDe cols
      · rw [if_pos he]
        exact List.mem_append.mpr (Or.inl (List.mem_append.mpr (Or.inl ho)))
      · rw [if_neg he]
        exact List.mem_append.mpr (Or.inl ho)
    · have hleft : x ∈ leftoverDe cols := leftoverDe_mem_of h1 ho h2
      by_cases he : "Error" ∈ leftoverDe cols
      · rw [if_pos he]
        by_cases hxe : x = "Error"
        · subst hxe
          exact List.mem_append.mpr (Or.inr (List.mem_singleton_self _))
        · exact List.mem_append.mpr
            (Or.inl (List.mem_append.mpr (Or.inr ((List.mem_erase_of_ne hxe).mpr hleft))))
      · rw [if_neg he]
        exact List.mem_append.mpr (Or.inr hleft)

theorem ordenarColumnas_nodup {cols : List String} (h : cols.Nodup) :
    (ordenarColumnas cols).Nodup := by
  unfold ordenarColumnas
  refine List.Nodup.filter _ ?_
  by_cases he : "Error" ∈ leftoverDe cols
  · rw [if_pos he]
    refine List.Nodup.append ?_ (List.nodup_singleton _) ?_
    · refine List.Nodup.append (orderedDe_nodup h) ?_ ?_
      · exact (List.erase_sublist _ _).nodup (h.filter _)
      · intro x hx hx2
        exact (mem_leftoverDe (List.erase_subset _ _ hx2)).2.1 hx
    · intro x hx hxe
      rw [List.mem_singleton.mp hxe] at hx
      rcases List.mem_append.mp hx with hx | hx
      · exact error_not_mem_orderedDe cols hx
      · exact (((h.filter _).mem_erase_iff).mp hx).1 rfl
  · rw [if_neg he]
    refine List.Nodup.append (orderedDe_nodup h) (h.filter _) ?_
    intro x hx hx2
    exact (mem_leftoverDe hx2).2.1 hx

theorem ordenarColumnas_fixed_first (cols : List String) :
    ∃ rest, ordenarColumnas cols = fixedCols.filter (fun c => cols.contains c) ++ rest := by
  unfold ordenarColumnas orderedDe
  have hself : (fixedCols.filter (fun c => cols.contains c)).filter (fun c => cols.contains c)
      = fixedCols.filter (fun c => cols.contains c) :=
    List.filter_eq_self.mpr (fun a ha => (List.mem_filter.mp ha).2)
  by_cases he : "Error" ∈ leftoverDe cols
  · rw [if_pos he]
    simp only [List.append_assoc]
    rw [List.filter_append, hself]
    exact ⟨_, rfl⟩
  · rw [if_neg he]
    simp only [List.append_assoc]
    rw [List.filter_append, hself]
    exact ⟨_, rfl⟩

theorem ordenarColumnas_error_last {cols : List String} (hE : "Error" ∈ cols) :
    (ordenarColumnas cols).getLast? = some "Error" := by
  unfold ordenarColumnas
  have he : "Error" ∈ leftoverDe cols :=
    leftoverDe_mem_of hE (error_not_mem_orderedDe cols) (by decide)
  rw [if_pos he, List.filter_append]
  have hct : cols.contains "Error" = true := contains_eq_true_iff.mpr hE
  have hpe : (["Error"].filter (fun c => cols.contains c)) = ["Error"] := by
    simp [List.filter_cons, hct, hE]
  rw [hpe]
  exact List.getLast?_concat _

theorem zip_lookup_isSome (l row : List String) (c : String)
    (hc : c ∈ l) (hlen : row.length = l.length) : ((l.zip row).lookup c).isSome := by
  induction l generalizing row with
  | nil => simp at hc
  | cons a l' ih =>
    cases row with
    | nil => simp at hlen
    | cons b row' =>
      rw [List.zip_cons_cons]
      by_cases hca : c = a
      · subst hca
        rw [lookup_cons_eq]
        rfl
      · rw [lookup_cons_ne b _ hca]
        exact ih row' ((List.mem_cons.mp hc).resolve_left hca) (by simpa using hlen)

theorem reindex_cell (df : DataFrame) (newCols : List String) (i : Nat) (c : String)
    (hc : c ∈ newCols) (hsub : ∀ x ∈ newCols, x ∈ df.cols)
    (hlen : ∀ row ∈ df.cells, row.length = df.cols.length) :
    (reindex df newCols).cell i c = df.cell i c := by
  unfold reindex DataFrame.cell
  cases hrow : df.cells[i]? with
  | none => simp [hrow]
  | some row =>
    simp only [List.getElem?_map, hrow, Option.map_some']
    rw [zip_map_lookup newCols _ c hc]
    have hsome : ((df.cols.zip row).lookup c).isSome :=
      zip_lookup_isSome df.cols row c (hsub c hc)
        (hlen row (List.getElem?_mem hrow))
    cases hl : (df.cols.zip row).lookup c with
    | none =>
      rw [hl] at hsome
      simp at hsome
    | some v => simp

/-- Claim C3, counterexample.  The claim says the output has exactly the
input's columns, with the fixed leading columns ordered taxonomic group,
common name, species identity, note, confidence.  On a frame whose columns
are ["Grupo taxonómico", "Especie", "protegido"], `ordenar_columnas_df`
returns ["Especie", "Grupo taxonómico"]: the species-identity column comes
first (before the taxonomic group) and the "protegido" column is dropped,
so the column set is not preserved; no confidence column exists at all. -/
theorem C3_counterexample :
    ordenarColumnasDf ⟨["Grupo taxonómico", "Especie", "protegido"], [["g", "e", "True"]]⟩
      = ⟨["Especie", "Grupo taxonómico"], [["e", "g"]]⟩ ∧
    (ordenarColumnasDf ⟨["Grupo taxonómico", "Especie", "protegido"],
      [["g", "e", "True"]]⟩).cols.head? = some "Especie" ∧
    ("Especie" : String) ≠ "Grupo taxonómico" ∧
    "protegido" ∉ (ordenarColumnasDf ⟨["Grupo taxonómico", "Especie", "protegido"],
      [["g", "e", "True"]]⟩).cols ∧
    "protegido" ∈ (["Grupo taxonómico", "Especie", "protegido"] : List String) := by
  refine ⟨by decide, by decide, by decide, by decide, by decide⟩

/-- Claim C3 (amended): `ordenar_columnas_df` reorders the columns of a
non-empty frame without changing any cell value; the output columns are
exactly the input columns minus the internal "protegido" column; the fixed
leading columns, in order, are the species identity, the taxonomic group,
the common name and the note column (there is no confidence column); and
the error column is always last. -/
theorem C3_order_columns (df : DataFrame) (h1 : df.cols.Nodup)
    (h2 : ∀ row ∈ df.cells, row.length = df.cols.length)
    (h3 : df.cells ≠ []) (h4 : df.cols ≠ []) :
    List.Perm (ordenarColumnasDf df).cols (df.cols.filter (fun c => c != "protegido")) ∧
    (∃ rest, (ordenarColumnasDf df).cols
      = fixedCols.filter (fun c => df.cols.contains c) ++ rest) ∧
    ("Error" ∈ df.cols → (ordenarColumnasDf df).cols.getLast? = some "Error") ∧
    (ordenarColumnasDf df).cells.length = df.cells.length ∧
    (∀ i c, c ∈ (ordenarColumnasDf df).cols →
      (ordenarColumnasDf df).cell i c = df.cell i c) := by
  have hdf : ordenarColumnasDf df = reindex df (ordenarColumnas df.cols) := by
    unfold ordenarColumnasDf
    rw [if_neg (by simp [h3, h4])]
  have hcols : (ordenarColumnasDf df).cols = ordenarColumnas df.cols := by
    rw [hdf]
    rfl
  refine ⟨?_, ?_, ?_, ?_, ?_⟩
  · rw [hcols]
    refine (List.perm_ext_iff_of_nodup (ordenarColumnas_nodup h1) (h1.filter _)).mpr ?_
    intro a
    rw [mem_ordenarColumnas, List.mem_filter, bne_iff_ne]
  · rw [hcols]
    exact ordenarColumnas_fixed_first df.cols
  · intro hE
    rw [hcols]
    exact ordenarColumnas_error_last hE
  · rw [hdf]
    unfold reindex
    simp
  · intro i c hc
    rw [hcols] at hc
    rw [hdf]
    exact reindex_cell df (ordenarColumnas df.cols) i c hc
      (fun x hx => (mem_ordenarColumnas.mp hx).1) h2

/-- Claim C3, witness: the amended theorem applied to a concrete frame with
an error column and a legal column. -/
theorem C3_witness :
    List.Perm (ordenarColumnasDf ⟨["Error", "Especie", "Catálogo Nacional"],
        [["-", "sp", "VU"]]⟩).cols
      ((["Error", "Especie", "Catálogo Nacional"] : List String).filter
        (fun c => c != "protegido")) ∧
    (∃ rest, (ordenarColumnasDf ⟨["Error", "Especie", "Catálogo Nacional"],
        [["-", "sp", "VU"]]⟩).cols
      = fixedCols.filter
          (fun c => (["Error", "Especie", "Catálogo Nacional"] : List String).contains c)
        ++ rest) ∧
    ("Error" ∈ (["Error", "Especie", "Catálogo Nacional"] : List String) →
      (ordenarColumnasDf ⟨["Error", "Especie", "Catálogo Nacional"],
        [["-", "sp", "VU"]]⟩).cols.getLast? = some "Error") ∧
    (ordenarColumnasDf ⟨["Error", "Especie", "Catálogo Nacional"],
      [["-", "sp", "VU"]]⟩).cells.length = 1 ∧
    (∀ i c, c ∈ (ordenarColumnasDf ⟨["Error", "Especie", "Catálogo Nacional"],
        [["-", "sp", "VU"]]⟩).cols →
      (ordenarColumnasDf ⟨["Error", "Especie", "Catálogo Nacional"],
        [["-", "sp", "VU"]]⟩).cell i c
        = (⟨["Error", "Especie", "Catálogo Nacional"],
            [["-", "sp", "VU"]]⟩ : DataFrame).cell i c) :=
  C3_order_columns ⟨["Error", "Especie", "Catálogo Nacional"], [["-", "sp", "VU"]]⟩
    (by decide) (by decide) (by simp) (by simp)

/-! ## Rate limiter lemmas -/

theorem throttledRequest_emit_ge (minInterval t : ℚ) (st : ThrottleState) :
    st.lastCall + minInterval ≤ (throttledRequest minInterval t st).1 := by
  show st.lastCall + minInterval ≤
    (if 0 < minInterval - (t - st.lastCall) then t + (minInterval - (t - st.lastCall)) else t)
  split_ifs with hw
  · linarith
  · linarith

theorem runCalls_head_ge (minInterval : ℚ) (calls : List (RegistryFn × ℚ))
    (st : ThrottleState) (hall : ∀ p ∈ calls, usesThrottle p.1 = true) :
    ∀ e ∈ (runCalls minInterval calls st).head?, st.lastCall + minInterval ≤ e := by
  cases calls with
  | nil =>
    intro e he
    simp [runCalls] at he
  | cons p rest =>
    obtain ⟨f, t⟩ := p
    have hf : usesThrottle f = true := hall (f, t) (List.mem_cons_self _ _)
    intro e he
    simp only [runCalls, if_pos hf, List.head?_cons, Option.mem_def,
      Option.some.injEq] at he
    rw [← he]
    exact throttledRequest_emit_ge minInterval t st

/-- Claim C4, counterexample.  The claim says every registry query function
enforces the shared rate limit.  `obtener_id_por_nombre` issues its request
through `_session.get` directly (it never touches `_get_json`'s throttle),
so two of its calls arriving 0.01 s apart are emitted 0.01 s apart — far
below the 0.25 s minimum interval. -/
theorem C4_counterexample :
    usesThrottle .idPorNombre = false ∧
    runCalls (1 / 4) [(.idPorNombre, 0), (.idPorNombre, 1 / 100)] ⟨0⟩ = [0, 1 / 100] ∧
    ¬ ((0 : ℚ) + 1 / 4 ≤ 1 / 100) :=
  ⟨rfl, rfl, by norm_num⟩

/-- Claim C4 (amended): only the taxonomic-group and common-name lookups go
through the throttled `_get_json` helper (the exact-name, id-to-name and
legal-status lookups call the session directly, and no conservation-status
function exists); for any sequence of calls that all use the throttled
helper, consecutive outbound emissions are at least the minimum interval
apart. -/
theorem C4_shared_rate_limit (minInterval : ℚ) :
    (∀ f : RegistryFn, usesThrottle f = true ↔
      (f = RegistryFn.grupoTaxonomico ∨ f = RegistryFn.nombreComun)) ∧
    (∀ (calls : List (RegistryFn × ℚ)) (st : ThrottleState),
      (∀ p ∈ calls, usesThrottle p.1 = true) →
      List.Chain' (fun a b => a + minInterval ≤ b) (runCalls minInterval calls st)) := by
  constructor
  · intro f
    cases f <;> simp [usesThrottle]
  · intro calls st hall
    induction calls generalizing st with
    | nil => simp [runCalls]
    | cons p rest ih =>
      obtain ⟨f, t⟩ := p
      have hf : usesThrottle f = true := hall (f, t) (List.mem_cons_self _ _)
      simp only [runCalls, if_pos hf]
      rw [List.chain'_cons']
      constructor
      · intro b hb
        exact runCalls_head_ge minInterval rest (throttledRequest minInterval t st).2
          (fun p hp => hall p (List.mem_cons_of_mem _ hp)) b hb
      · exact ih _ (fun p hp => hall p (List.mem_cons_of_mem _ hp))

/-- Claim C4, witness: the amended theorem at interval 1/4 with the two
throttled functions called 0.1 s apart — their emissions come out 0.25 s
apart. -/
theorem C4_witness :
    (usesThrottle RegistryFn.grupoTaxonomico = true ↔
      (RegistryFn.grupoTaxonomico = RegistryFn.grupoTaxonomico ∨
        RegistryFn.grupoTaxonomico = RegistryFn.nombreComun)) ∧
    List.Chain' (fun a b => a + 1 / 4 ≤ b)
      (runCalls (1 / 4) [(.grupoTaxonomico, 0), (.nombreComun, 1 / 10)] ⟨0⟩) :=
  ⟨(C4_shared_rate_limit (1 / 4)).1 RegistryFn.grupoTaxonomico,
   (C4_shared_rate_limit (1 / 4)).2 [(.grupoTaxonomico, 0), (.nombreComun, 1 / 10)] ⟨0⟩
     (by decide)⟩

end EIDOScopio
